import Mathlib

set_option maxRecDepth 100000

/-!
# Binary codec and module table of the emulator

A shallow embedding of `src/emulator/serialization.hpp` (the classes
`utils::buffer_serializer` and `utils::buffer_deserializer`) and of
`src/windows-emulator/module/module_manager.cpp` (the encoding of the module
records, `canonicalize_module_path`, and the members `map_module`, `unmap`,
`serialize` and `deserialize` of `module_manager`).

Conventions of the embedding.

* A byte (`std::byte`) is a `Fin 256`; a buffer is a `List Byte`.
* `size_t` and `uint64_t` are 64 bit wide: every sum the source computes in one
  of them is written `% 2 ^ 64` here.
* A C++ exception leaves the mutations made before the `throw` in place.  A
  member function that can throw therefore returns the error *together with*
  the reader (and, for the in-place readers, the destination object) as the
  caller finds them afterwards.
* The build mode (`NDEBUG` defined or not) is the Boolean `canary`:
  `canary = true` is the debug build, in which the `#ifndef NDEBUG` blocks are
  compiled in.
* A trivially copyable object of `w` bytes is identified with the number
  `< 256 ^ w` that its object representation spells in little-endian order.
* `reserve(size)` throws `std::length_error` when `size` exceeds `max_size()`
  of the container and otherwise leaves the value of the container as it is
  (allocation below that bound is taken to succeed).  `max_size()` is
  implementation-defined; it is an argument of the readers that reserve.
* A `std::map` is the list of its entries in iteration order, by strictly
  increasing key; theorems about a table that rely on this say so in a
  hypothesis.
* The emulator that `module_manager::emu_` points to is an abstract state that
  the loader and the unloader transform; `map_module` and `unmap` return it
  together with the calls and log lines they issued.
* A `std::filesystem::path` is kept as its string; the comparison of two
  paths (`operator==`, element by element) is a parameter, as are the other
  calls into `std::filesystem`.
-/

namespace utils

/-- The type `std::byte`. -/
abbrev Byte := Fin 256

/-- The exceptions of the readers: the two `std::runtime_error`s thrown by
`buffer_deserializer::read_data`, "Out of bounds read from byte buffer" and
"Reading from serialized buffer mismatches written data!", and the
`std::length_error` that `reserve` throws for a count above `max_size()`. -/
inductive Error where
  | out_of_bounds
  | mismatch
  | length_error
  deriving DecidableEq, Repr

/-- The object representation of the number `n` in `k` bytes, least significant
byte first (what `memcpy` from an unsigned integer of `k` bytes yields on the
little-endian targets of the emulator). -/
def toLE : Nat → Nat → List Byte
  | 0, _ => []
  | k + 1, n => ⟨n % 256, Nat.mod_lt _ (by decide)⟩ :: toLE k (n / 256)

/-- The number spelled by an object representation (what `memcpy` into an
unsigned integer yields). -/
def fromLE : List Byte → Nat
  | [] => 0
  | b :: bs => b.val + 256 * fromLE bs

/-- The class `std::span<const std::byte>` as returned by `read_data`: a start
position relative to the beginning of the borrowed buffer, and a length. -/
structure span where
  data : Nat
  size : Nat
  deriving DecidableEq, Repr

/-- The bytes of the buffer that a span covers (fewer than `size` of them when
the span reaches past the end of the buffer). -/
def span.bytes (buffer : List Byte) (s : span) : List Byte :=
  (buffer.drop s.data).take s.size

/-- The class `buffer_deserializer`: the borrowed region and the cursor. -/
structure buffer_deserializer where
  buffer_ : List Byte
  offset_ : Nat
  deriving DecidableEq, Repr

/-- The constructor of `buffer_deserializer`: the cursor starts at `0`. -/
def buffer_deserializer.mk_from (buffer : List Byte) : buffer_deserializer :=
  ⟨buffer, 0⟩

/-- The member `buffer_deserializer::read_data(length)`. -/
def buffer_deserializer.read_data (canary : Bool) (length : Nat)
    (d : buffer_deserializer) : Except Error span × buffer_deserializer :=
  let real_old_size := d.offset_ % 2 ^ 64
  if (d.offset_ + length) % 2 ^ 64 > d.buffer_.length then
    (.error .out_of_bounds, d)
  else
    let result : span := ⟨d.offset_, length⟩
    let d1 : buffer_deserializer := { d with offset_ := (d.offset_ + length) % 2 ^ 64 }
    if canary then
      if (d1.offset_ + 8) % 2 ^ 64 > d1.buffer_.length then
        (.error .out_of_bounds, d1)
      else
        let old_size := fromLE ((d1.buffer_.drop d1.offset_).take 8)
        if old_size ≠ real_old_size then
          (.error .mismatch, d1)
        else
          (.ok result, { d1 with offset_ := (d1.offset_ + 8) % 2 ^ 64 })
    else
      (.ok result, d1)

/-- The member `buffer_deserializer::read(void* data, size_t length)`: the
bytes that `memcpy` stores at `data`. -/
def buffer_deserializer.read (canary : Bool) (length : Nat)
    (d : buffer_deserializer) : Except Error (List Byte) × buffer_deserializer :=
  match d.read_data canary length with
  | (.ok s, d1) => (.ok (s.bytes d.buffer_), d1)
  | (.error e, d1) => (.error e, d1)

/-- The member `buffer_deserializer::get_remaining_size`. -/
def buffer_deserializer.get_remaining_size (d : buffer_deserializer) : Nat :=
  (d.buffer_.length + (2 ^ 64 - d.offset_ % 2 ^ 64)) % 2 ^ 64

/-- The member `buffer_deserializer::get_remaining_data`. -/
def buffer_deserializer.get_remaining_data (canary : Bool)
    (d : buffer_deserializer) : Except Error span × buffer_deserializer :=
  d.read_data canary d.get_remaining_size

/-- The member `buffer_deserializer::get_offset`. -/
def buffer_deserializer.get_offset (d : buffer_deserializer) : Nat :=
  d.offset_

/-- The class `buffer_serializer`: the owned, growing buffer. -/
structure buffer_serializer where
  buffer_ : List Byte
  deriving DecidableEq, Repr

/-- The member `buffer_serializer::write(const void* buffer, size_t length)`;
the payload is the list of the `length` bytes found at `buffer`. -/
def buffer_serializer.write (canary : Bool) (payload : List Byte)
    (s : buffer_serializer) : buffer_serializer :=
  let old_size := s.buffer_.length % 2 ^ 64
  let s1 : buffer_serializer := ⟨s.buffer_ ++ payload⟩
  if canary then ⟨s1.buffer_ ++ toLE 8 old_size⟩ else s1

/-- The members `get_buffer` and `move_buffer` of `buffer_serializer`. -/
def buffer_serializer.get_buffer (s : buffer_serializer) : List Byte :=
  s.buffer_

/-- What a call of an in-place reader (`void read(T& object)` and its
relatives) leaves behind: the error thrown, if any, the destination object and
the reader. -/
structure Outcome (α : Type) where
  error : Option Error
  object : α
  reader : buffer_deserializer

/-- The compile-time dispatch of `write<T>` and `read<T>(T&)` for one type `T`:
the value `T{}`, the writer and the in-place reader the templates select.
`valid` singles out the values that inhabit the C++ type. -/
structure Serial (α : Type) where
  zero : α
  valid : α → Prop
  write : Bool → α → buffer_serializer → buffer_serializer
  read : Bool → α → buffer_deserializer → Outcome α

/-- The template `T buffer_deserializer::read<T>()`: `T object{}`, then
`read(object)`, then `return object`. -/
def buffer_deserializer.read_value {α : Type} (S : Serial α) (canary : Bool)
    (d : buffer_deserializer) : Except Error α × buffer_deserializer :=
  match S.read canary S.zero d with
  | ⟨none, object, d1⟩ => (.ok object, d1)
  | ⟨some e, _, d1⟩ => (.error e, d1)

/-- The third branch of the dispatch, `std::is_trivially_copyable_v<T>` with
`sizeof(T) = w`: the raw bytes of the object are written and read. -/
def raw (w : Nat) : Serial Nat where
  zero := 0
  valid := fun v => v < 256 ^ w
  write := fun canary v s => s.write canary (toLE w v)
  read := fun canary object d =>
    match d.read canary w with
    | (.ok bytes, d1) => ⟨none, fromLE bytes, d1⟩
    | (.error e, d1) => ⟨some e, object, d1⟩

/-- The template `buffer_serializer::write_span`: the element count as a
`uint64_t`, then every element through `write<T>`, in iteration order. -/
def buffer_serializer.write_span {α : Type} (S : Serial α) (canary : Bool)
    (vec : List α) (s : buffer_serializer) : buffer_serializer :=
  vec.foldl (fun s1 v => S.write canary v s1)
    ((raw 8).write canary (vec.length % 2 ^ 64) s)

/-- The template `buffer_serializer::write_vector`. -/
def buffer_serializer.write_vector {α : Type} (S : Serial α) (canary : Bool)
    (vec : List α) (s : buffer_serializer) : buffer_serializer :=
  s.write_span S canary vec

/-- The template `buffer_serializer::write_string` for a character type of
`w` bytes (both overloads: the `basic_string` one forwards to the
`basic_string_view` one, which calls `write_span<const T>`). -/
def buffer_serializer.write_string (w : Nat) (canary : Bool)
    (str : List Nat) (s : buffer_serializer) : buffer_serializer :=
  s.write_span (raw w) canary str

/-- The template `buffer_serializer::write_map`: the entry count as a
`uint64_t`, then for every entry its key and its value. -/
def buffer_serializer.write_map {κ α : Type} (K : Serial κ) (V : Serial α)
    (canary : Bool) (map : List (κ × α)) (s : buffer_serializer) :
    buffer_serializer :=
  map.foldl (fun s1 entry => V.write canary entry.2 (K.write canary entry.1 s1))
    ((raw 8).write canary (map.length % 2 ^ 64) s)

/-- The loop of `read_vector`: `size` times `result.emplace_back(read<T>())`. -/
def buffer_deserializer.read_vector_loop {α : Type} (S : Serial α)
    (canary : Bool) : Nat → List α → buffer_deserializer → Outcome (List α)
  | 0, result, d => ⟨none, result, d⟩
  | n + 1, result, d =>
    match d.read_value S canary with
    | (.error e, d1) => ⟨some e, result, d1⟩
    | (.ok v, d1) => buffer_deserializer.read_vector_loop S canary n (result ++ [v]) d1

/-- The template `void buffer_deserializer::read_vector(std::vector<T>& result)`:
the count is read, then `result.clear()`, then `result.reserve(size)`, which
throws when the count exceeds `max_size`, the value of
`std::vector<T>::max_size()`, then the loop. -/
def buffer_deserializer.read_vector {α : Type} (S : Serial α) (canary : Bool)
    (max_size : Nat) (result : List α) (d : buffer_deserializer) : Outcome (List α) :=
  match d.read_value (raw 8) canary with
  | (.error e, d1) => ⟨some e, result, d1⟩
  | (.ok size, d1) =>
    if size > max_size then ⟨some .length_error, [], d1⟩
    else d1.read_vector_loop S canary size []

/-- The template `std::vector<T> buffer_deserializer::read_vector()`. -/
def buffer_deserializer.read_vector_value {α : Type} (S : Serial α)
    (canary : Bool) (max_size : Nat) (d : buffer_deserializer) :
    Except Error (List α) × buffer_deserializer :=
  match d.read_vector S canary max_size [] with
  | ⟨none, result, d1⟩ => (.ok result, d1)
  | ⟨some e, _, d1⟩ => (.error e, d1)

/-- The loop of `read_string`: `size` times `result.push_back(read<T>())`. -/
def buffer_deserializer.read_string_loop (w : Nat) (canary : Bool) :
    Nat → List Nat → buffer_deserializer → Outcome (List Nat)
  | 0, result, d => ⟨none, result, d⟩
  | n + 1, result, d =>
    match d.read_value (raw w) canary with
    | (.error e, d1) => ⟨some e, result, d1⟩
    | (.ok v, d1) => buffer_deserializer.read_string_loop w canary n (result ++ [v]) d1

/-- The template `void buffer_deserializer::read_string(std::basic_string<T>& result)`
for a character type of `w` bytes: the count is read, then `result.clear()`,
then `result.reserve(size)`, which throws when the count exceeds `max_size`,
the value of `std::basic_string<T>::max_size()`, then the loop. -/
def buffer_deserializer.read_string (w : Nat) (canary : Bool) (max_size : Nat)
    (result : List Nat) (d : buffer_deserializer) : Outcome (List Nat) :=
  match d.read_value (raw 8) canary with
  | (.error e, d1) => ⟨some e, result, d1⟩
  | (.ok size, d1) =>
    if size > max_size then ⟨some .length_error, [], d1⟩
    else d1.read_string_loop w canary size []

/-- The template `std::basic_string<T> buffer_deserializer::read_string()`. -/
def buffer_deserializer.read_string_value (w : Nat) (canary : Bool) (max_size : Nat)
    (d : buffer_deserializer) : Except Error (List Nat) × buffer_deserializer :=
  match d.read_string w canary max_size [] with
  | ⟨none, result, d1⟩ => (.ok result, d1)
  | ⟨some e, _, d1⟩ => (.error e, d1)

/-- The statement `map[key] = value` on a `std::map`, which is kept as the list
of its entries in iteration order, that is by strictly increasing key. -/
def map_assign {κ α : Type} [LinearOrder κ] (key : κ) (value : α) :
    List (κ × α) → List (κ × α)
  | [] => [(key, value)]
  | entry :: rest =>
    if key < entry.1 then (key, value) :: entry :: rest
    else if key = entry.1 then (entry.1, value) :: rest
    else entry :: map_assign key value rest

/-- The loop of `read_map`: `size` times a key, a value and `map[key] = value`. -/
def buffer_deserializer.read_map_loop {κ α : Type} [LinearOrder κ]
    (K : Serial κ) (V : Serial α) (canary : Bool) :
    Nat → List (κ × α) → buffer_deserializer → Outcome (List (κ × α))
  | 0, map, d => ⟨none, map, d⟩
  | n + 1, map, d =>
    match d.read_value K canary with
    | (.error e, d1) => ⟨some e, map, d1⟩
    | (.ok key, d1) =>
      match d1.read_value V canary with
      | (.error e, d2) => ⟨some e, map, d2⟩
      | (.ok value, d2) =>
        buffer_deserializer.read_map_loop K V canary n (map_assign key value map) d2

/-- The template `void buffer_deserializer::read_map(Map& map)`; the argument
`_map` is the content of the destination before the call, which `map.clear()`
discards first. -/
def buffer_deserializer.read_map {κ α : Type} [LinearOrder κ]
    (K : Serial κ) (V : Serial α) (canary : Bool) (_map : List (κ × α))
    (d : buffer_deserializer) : Outcome (List (κ × α)) :=
  match d.read_value (raw 8) canary with
  | (.error e, d1) => ⟨some e, [], d1⟩
  | (.ok size, d1) => d1.read_map_loop K V canary size []

/-- The template `Map buffer_deserializer::read_map()`. -/
def buffer_deserializer.read_map_value {κ α : Type} [LinearOrder κ]
    (K : Serial κ) (V : Serial α) (canary : Bool) (d : buffer_deserializer) :
    Except Error (List (κ × α)) × buffer_deserializer :=
  match d.read_map K V canary [] with
  | ⟨none, map, d1⟩ => (.ok map, d1)
  | ⟨some e, _, d1⟩ => (.error e, d1)

/-- The specialisations `write<std::string>` / `read<std::string>` (`w = 1`)
and `write<std::wstring>` / `read<std::wstring>` (`w = sizeof(wchar_t)`):
`write_string(object)` and `object = read_string<T>()`.  `max_size` is the
value of `max_size()` of the string type; a string is at most that long. -/
def basic_string (w max_size : Nat) : Serial (List Nat) where
  zero := []
  valid := fun str =>
    str.length < 2 ^ 64 ∧ str.length ≤ max_size ∧ ∀ ch ∈ str, ch < 256 ^ w
  write := fun canary object s => s.write_string w canary object
  read := fun canary object d =>
    match d.read_string_value w canary max_size with
    | (.ok str, d1) => ⟨none, str, d1⟩
    | (.error e, d1) => ⟨some e, object, d1⟩

/-- One statement of a `deserialize` function that reads into the member
`get`/`set` of the object: the member is updated as the reader leaves it, also
when the reader throws. -/
def Outcome.member {σ β : Type} (get : σ → β) (set : σ → β → σ)
    (r : β → buffer_deserializer → Outcome β) (object : σ)
    (d : buffer_deserializer) : Outcome σ :=
  let o := r (get object) d
  ⟨o.error, set object o.object, o.reader⟩

/-- Sequencing of two statements: the second one runs only when the first one
did not throw. -/
def Outcome.next {σ : Type} (o : Outcome σ)
    (f : σ → buffer_deserializer → Outcome σ) : Outcome σ :=
  match o.error with
  | none => f o.object o.reader
  | some _ => o

end utils

open utils

/-- Modelled from the spec: the widths in bytes of the integer members of
`exported_symbol` and `mapped_module` (the address-name map is keyed by an
`address`), of the `key` of the module table, and of `wchar_t`, and the
values of `max_size()` of `std::string`, of `std::wstring` and of the vector
of exported symbols.  The headers that declare the two structs
(`module_manager.hpp` and what it includes) are not among the sources; the
spec only calls these members integers, addresses, text and lists, so their
sizes and bounds are parameters of the embedding. -/
structure member_sizes where
  ordinal : Nat
  rva : Nat
  address : Nat
  image_base : Nat
  size_of_image : Nat
  entry_point : Nat
  key : Nat
  wchar : Nat
  string_max_size : Nat
  wstring_max_size : Nat
  exports_max_size : Nat
  deriving DecidableEq, Repr

/-- The sizes on the 64-bit Windows target: every integer is a `uint64_t`,
`wchar_t` has two bytes, and no container holds more than `PTRDIFF_MAX`
bytes. -/
def member_sizes.win64 : member_sizes where
  ordinal := 8
  rva := 8
  address := 8
  image_base := 8
  size_of_image := 8
  entry_point := 8
  key := 8
  wchar := 2
  string_max_size := 2 ^ 63 - 1
  wstring_max_size := (2 ^ 63 - 1) / 2
  exports_max_size := (2 ^ 63 - 1) / 56

/-- Modelled from the spec: the struct `exported_symbol`, {name: text,
ordinal, relative virtual address, absolute address}; its declaration is not
among the sources. -/
structure exported_symbol where
  name : List Nat
  ordinal : Nat
  rva : Nat
  address : Nat
  deriving DecidableEq, Repr

/-- Modelled from the spec: the struct `mapped_module`, {name, canonical path,
image base, size of image, entry point, exports, address-to-name map}; its
declaration is not among the sources.  The path is kept as the wide string
`path.wstring()`. -/
structure mapped_module where
  name : List Nat
  path : List Nat
  image_base : Nat
  size_of_image : Nat
  entry_point : Nat
  exports : List exported_symbol
  address_names : List (Nat × List Nat)
  deriving DecidableEq, Repr

/-- The function `serialize(utils::buffer_serializer&, const exported_symbol&)`. -/
def serialize_exported_symbol (A : member_sizes) (canary : Bool)
    (sym : exported_symbol) (buffer : buffer_serializer) : buffer_serializer :=
  let b1 := (basic_string 1 A.string_max_size).write canary sym.name buffer
  let b2 := (raw A.ordinal).write canary sym.ordinal b1
  let b3 := (raw A.rva).write canary sym.rva b2
  (raw A.address).write canary sym.address b3

/-- The function `deserialize(utils::buffer_deserializer&, exported_symbol&)`. -/
def deserialize_exported_symbol (A : member_sizes) (canary : Bool)
    (sym : exported_symbol) (buffer : buffer_deserializer) :
    Outcome exported_symbol :=
  (((Outcome.member exported_symbol.name (fun o x => { o with name := x })
        ((basic_string 1 A.string_max_size).read canary) sym buffer).next
      (Outcome.member exported_symbol.ordinal (fun o x => { o with ordinal := x })
        ((raw A.ordinal).read canary))).next
      (Outcome.member exported_symbol.rva (fun o x => { o with rva := x })
        ((raw A.rva).read canary))).next
      (Outcome.member exported_symbol.address (fun o x => { o with address := x })
        ((raw A.address).read canary))

/-- The second branch of the dispatch (`has_serialize_function`) for
`exported_symbol`. -/
def exported_symbol.serial (A : member_sizes) : Serial exported_symbol where
  zero := ⟨[], 0, 0, 0⟩
  valid := fun sym =>
    (basic_string 1 A.string_max_size).valid sym.name ∧ sym.ordinal < 256 ^ A.ordinal ∧
      sym.rva < 256 ^ A.rva ∧ sym.address < 256 ^ A.address
  write := serialize_exported_symbol A
  read := deserialize_exported_symbol A

/-- The function `serialize(utils::buffer_serializer&, const mapped_module&)`. -/
def serialize_mapped_module (A : member_sizes) (canary : Bool)
    (mod : mapped_module) (buffer : buffer_serializer) : buffer_serializer :=
  let b1 := buffer.write_string 1 canary mod.name
  let b2 := b1.write_string A.wchar canary mod.path
  let b3 := (raw A.image_base).write canary mod.image_base b2
  let b4 := (raw A.size_of_image).write canary mod.size_of_image b3
  let b5 := (raw A.entry_point).write canary mod.entry_point b4
  let b6 := b5.write_vector (exported_symbol.serial A) canary mod.exports
  b6.write_map (raw A.address) (basic_string 1 A.string_max_size) canary
    mod.address_names

/-- The function `deserialize(utils::buffer_deserializer&, mapped_module&)`. -/
def deserialize_mapped_module (A : member_sizes) (canary : Bool)
    (mod : mapped_module) (buffer : buffer_deserializer) : Outcome mapped_module :=
  ((((((Outcome.member mapped_module.name (fun o x => { o with name := x })
        ((basic_string 1 A.string_max_size).read canary) mod buffer).next
      (Outcome.member mapped_module.path (fun o x => { o with path := x })
        ((basic_string A.wchar A.wstring_max_size).read canary))).next
      (Outcome.member mapped_module.image_base (fun o x => { o with image_base := x })
        ((raw A.image_base).read canary))).next
      (Outcome.member mapped_module.size_of_image
        (fun o x => { o with size_of_image := x })
        ((raw A.size_of_image).read canary))).next
      (Outcome.member mapped_module.entry_point
        (fun o x => { o with entry_point := x })
        ((raw A.entry_point).read canary))).next
      (Outcome.member mapped_module.exports (fun o x => { o with exports := x })
        (buffer_deserializer.read_vector (exported_symbol.serial A) canary
          A.exports_max_size))).next
      (Outcome.member mapped_module.address_names
        (fun o x => { o with address_names := x })
        (buffer_deserializer.read_map (raw A.address)
          (basic_string 1 A.string_max_size) canary))

/-- The second branch of the dispatch (`has_serialize_function`) for
`mapped_module`. -/
def mapped_module.serial (A : member_sizes) : Serial mapped_module where
  zero := ⟨[], [], 0, 0, 0, [], []⟩
  valid := fun mod =>
    (basic_string 1 A.string_max_size).valid mod.name ∧
      (basic_string A.wchar A.wstring_max_size).valid mod.path ∧
      mod.image_base < 256 ^ A.image_base ∧
      mod.size_of_image < 256 ^ A.size_of_image ∧
      mod.entry_point < 256 ^ A.entry_point ∧
      (mod.exports.length < 2 ^ 64 ∧ mod.exports.length ≤ A.exports_max_size ∧
        ∀ sym ∈ mod.exports, (exported_symbol.serial A).valid sym) ∧
      (mod.address_names.length < 2 ^ 64 ∧
        (mod.address_names.map Prod.fst).Pairwise (· < ·) ∧
        ∀ entry ∈ mod.address_names,
          entry.1 < 256 ^ A.address ∧
            (basic_string 1 A.string_max_size).valid entry.2)
  write := serialize_mapped_module A
  read := deserialize_mapped_module A

/-- The class `module_manager`: the table `modules_`, a `std::map` from image
base to record.  The emulator behind the pointer `emu_` is passed to the
members that use it. -/
structure module_manager where
  modules_ : List (Nat × mapped_module)

/-- The member `module_manager::serialize`. -/
def module_manager.serialize (A : member_sizes) (canary : Bool)
    (m : module_manager) (buffer : buffer_serializer) : buffer_serializer :=
  buffer.write_map (raw A.key) (mapped_module.serial A) canary m.modules_

/-- The member `module_manager::deserialize`: what it throws, if anything, the
manager and the reader afterwards. -/
def module_manager.deserialize (A : member_sizes) (canary : Bool)
    (m : module_manager) (buffer : buffer_deserializer) :
    Option Error × module_manager × buffer_deserializer :=
  let o := buffer.read_map (raw A.key) (mapped_module.serial A) canary m.modules_
  (o.error, ⟨o.object⟩, o.reader)

namespace utils

/-- The buffer `b` is the buffer `a` with bytes appended. -/
def Extends (a b : List Byte) : Prop := ∃ t, b = a ++ t

/-- The round-trip law of one type at one build mode: `write<T>` only appends,
and over any buffer that starts with what `write<T>` produced from a
serializer holding `n` bytes, `read<T>` at cursor `n` does not throw, stores
the written value in the destination (whatever it held) and moves the cursor
to the end of the written bytes. -/
def Lawful {α : Type} (S : Serial α) (canary : Bool) : Prop :=
  (∀ v s, Extends s.buffer_ (S.write canary v s).buffer_) ∧
  ∀ v, S.valid v → ∀ (s : buffer_serializer) (B : List Byte) (object : α),
    Extends (S.write canary v s).buffer_ B →
    (S.write canary v s).buffer_.length < 2 ^ 64 →
    S.read canary object ⟨B, s.buffer_.length⟩
      = ⟨none, v, ⟨B, (S.write canary v s).buffer_.length⟩⟩

end utils
/-- The text of a string literal as a `std::string` or `std::wstring`: the
list of its character codes. -/
def text (str : String) : List Nat := str.toList.map Char.toNat

/-- The record of the example scenario of the spec. -/
def ntdll : mapped_module where
  name := text "ntdll.dll"
  path := text "C:\\Windows\\System32\\ntdll.dll"
  image_base := 0x7FF00000
  size_of_image := 0x100000
  entry_point := 0x7FF01000
  exports := [⟨text "NtClose", 5, 0x2000, 0x7FF02000⟩]
  address_names := [(0x7FF02000, text "NtClose")]

/-- The types `T` for which `read<T>` and `write<T>` are instantiated: the
trivially copyable types of `w` bytes, the strings of characters of `w` bytes
(with the value of their `max_size()`), `exported_symbol` and
`mapped_module`. -/
inductive Ty where
  | trivial (w : Nat)
  | text (w max_size : Nat)
  | symbol (A : member_sizes)
  | module (A : member_sizes)

/-- The values of a type. -/
def Ty.obj : Ty → Type
  | .trivial _ => Nat
  | .text _ _ => List Nat
  | .symbol _ => exported_symbol
  | .module _ => mapped_module

/-- The dispatch of `read<T>` and `write<T>` for a type. -/
def Ty.serial : (T : Ty) → Serial T.obj
  | .trivial w => raw w
  | .text w max_size => basic_string w max_size
  | .symbol A => exported_symbol.serial A
  | .module A => mapped_module.serial A

/-- One call of a public reading member of `buffer_deserializer`, with the
destination object the caller passes (the forms that return the value are the
same calls on a value-initialised destination) and, for the readers that
reserve, the value of `max_size()` of the destination. -/
inductive Call where
  | read_data (length : Nat)
  | read (T : Ty) (object : T.obj)
  | read_vector (T : Ty) (max_size : Nat) (result : List T.obj)
  | read_string (w : Nat) (max_size : Nat) (result : List Nat)
  | read_map (w : Nat) (T : Ty) (map : List (Nat × T.obj))
  | get_remaining_data

/-- The reader as a call leaves it, whether the call returns or throws. -/
def Call.run (canary : Bool) (d : buffer_deserializer) : Call → buffer_deserializer
  | .read_data length => (d.read_data canary length).2
  | .read T object => (T.serial.read canary object d).reader
  | .read_vector T max_size result =>
    (d.read_vector T.serial canary max_size result).reader
  | .read_string w max_size result => (d.read_string w canary max_size result).reader
  | .read_map w T map => (d.read_map (raw w) T.serial canary map).reader
  | .get_remaining_data => (d.get_remaining_data canary).2

namespace utils

/-- The reader `d` still borrows the buffer `B`, and its cursor is a `size_t`
that does not exceed the length of `B`. -/
def Inv (B : List Byte) (d : buffer_deserializer) : Prop :=
  d.buffer_ = B ∧ d.offset_ ≤ B.length ∧ d.offset_ < 2 ^ 64

/-- The reader of the type keeps the cursor invariant. -/
def Safe {α : Type} (S : Serial α) : Prop :=
  ∀ (B : List Byte) (canary : Bool) (object : α) (d : buffer_deserializer),
    Inv B d → Inv B (S.read canary object d).reader

end utils

namespace utils

/-- The member `find` of a `std::map`: the value stored under the key, if any. -/
def map_find {κ α : Type} [LinearOrder κ] (key : κ) : List (κ × α) → Option α
  | [] => none
  | entry :: rest => if key = entry.1 then some entry.2 else map_find key rest

/-- The member `try_emplace` of a `std::map`: the entry is inserted at its place
in key order unless the key is already present, in which case the map is
left as it is. -/
def map_try_emplace {κ α : Type} [LinearOrder κ] (key : κ) (value : α) :
    List (κ × α) → List (κ × α)
  | [] => [(key, value)]
  | entry :: rest =>
    if key < entry.1 then (key, value) :: entry :: rest
    else if key = entry.1 then entry :: rest
    else entry :: map_try_emplace key value rest

/-- The member `erase` of a `std::map`, called on the iterator that `find`
returned for the key: the entry found is removed. -/
def map_erase {κ α : Type} [LinearOrder κ] (key : κ) : List (κ × α) → List (κ × α)
  | [] => []
  | entry :: rest => if key = entry.1 then rest else entry :: map_erase key rest

end utils

/-- The constant `nt_prefix` of `canonicalize_module_path`: the UTF-16 string
`\??\`. -/
def nt_prefix : List Nat := [92, 63, 63, 92]

/-- The member `starts_with` of `std::u16string`. -/
def starts_with (str pre : List Nat) : Bool :=
  decide (str.take pre.length = pre)

/-- The function `canonicalize_module_path`.  A path is kept as its UTF-16
string (`file.u16string()`, and back by the constructor of
`std::filesystem::path`).  The argument `canonical_absolute` stands for the
call `canonical(absolute(file))` into `std::filesystem`, which returns the
canonical path or throws (`none`). -/
def canonicalize_module_path (canonical_absolute : List Nat → Option (List Nat))
    (file : List Nat) : Option (List Nat) :=
  let wide_file := file
  if _h : starts_with wide_file nt_prefix = false then
    canonical_absolute file
  else
    canonicalize_module_path canonical_absolute (wide_file.drop (List.length nt_prefix))
termination_by file.length
decreasing_by
  simp only [starts_with, nt_prefix, List.length_cons, List.length_nil,
    decide_eq_false_iff_not, not_not] at _h
  have hlen : (List.take 4 file).length = 4 := by rw [_h]; rfl
  simp only [List.length_take] at hlen
  simp only [ nt_prefix, List.length_cons, List.length_nil, List.length_drop]
  omega

/-- Modelled from the spec: the collaborators of `module_manager`.  Their code
(`module_mapping.hpp`, `std::filesystem`) is not among the sources.  `ε` is
the state of the emulator the manager points to (`emu_`).
`canonical_absolute` is `canonical(absolute(file))`, `none` when it throws.
`path_equal` is `operator==` of `std::filesystem::path`, which compares two
paths element by element (so `a//b` equals `a/b`); it is an equivalence
relation.  `map_module_from_file` is the loader: it returns a populated
record or an empty `std::optional`, and the emulator as it leaves it.
`unmap_module` reverses the mapping of a record. -/
structure collaborators (ε : Type) where
  canonical_absolute : List Nat → Option (List Nat)
  path_equal : List Nat → List Nat → Bool
  path_equal_refl : ∀ p, path_equal p p = true
  path_equal_symm : ∀ p q, path_equal p q = true → path_equal q p = true
  path_equal_trans : ∀ p q r,
    path_equal p q = true → path_equal q r = true → path_equal p r = true
  map_module_from_file : ε → List Nat → Option mapped_module × ε
  unmap_module : ε → mapped_module → ε

/-- What `map_module` and `unmap` do to their collaborators, in order: the
calls of the loader (with the path passed) and of `unmap_module` (with the
record passed), and the lines given to the logger, `logger.error` with the
requested file and `logger.log` with the path and the image base of the
record. -/
inductive event where
  | load (canonical_file : List Nat)
  | unload (mod : mapped_module)
  | error (file : List Nat)
  | log (path : List Nat) (image_base : Nat)
  deriving DecidableEq, Repr

/-- What `map_module` returns: it throws (out of `canonicalize_module_path`),
or it returns `nullptr`, or a pointer to the entry of the table stored under
a key. -/
inductive observation where
  | threw
  | nullptr
  | entry (key : Nat)
  deriving DecidableEq, Repr

/-- The state after a call of `map_module` and what the call did. -/
structure map_module_outcome (ε : Type) where
  result : observation
  manager : module_manager
  emu : ε
  events : List event

/-- The member `module_manager::map_module`.  The scan of the table stops at
the first record, in iteration order, whose path compares equal
(`mod.second.path == canonical_file`) to the canonical path. -/
def module_manager.map_module {ε : Type} (C : collaborators ε)
    (file : List Nat) (m : module_manager) (emu : ε) : map_module_outcome ε :=
  match canonicalize_module_path C.canonical_absolute file with
  | none => ⟨.threw, m, emu, []⟩
  | some canonical_file =>
    match m.modules_.find? (fun mod => C.path_equal mod.2.path canonical_file) with
    | some mod => ⟨.entry mod.1, m, emu, []⟩
    | none =>
      match C.map_module_from_file emu canonical_file with
      | (none, emu1) => ⟨.nullptr, m, emu1, [.load canonical_file, .error file]⟩
      | (some mod, emu1) =>
        let image_base := mod.image_base
        ⟨.entry image_base, ⟨map_try_emplace image_base mod m.modules_⟩, emu1,
          [.load canonical_file, .log mod.path mod.image_base]⟩

/-- The state after a call of `unmap` and what the call did. -/
structure unmap_outcome (ε : Type) where
  result : Bool
  manager : module_manager
  emu : ε
  events : List event

/-- The member `module_manager::unmap`. -/
def module_manager.unmap {ε : Type} (C : collaborators ε) (address : Nat)
    (m : module_manager) (emu : ε) : unmap_outcome ε :=
  match map_find address m.modules_ with
  | none => ⟨false, m, emu, []⟩
  | some mod => ⟨true, ⟨map_erase address m.modules_⟩, C.unmap_module emu mod, [.unload mod]⟩

/-- One call of `map_module` or of `unmap`. -/
inductive manager_call where
  | map_module (file : List Nat)
  | unmap (address : Nat)

/-- The manager and the emulator as a call leaves them. -/
def manager_call.run {ε : Type} (C : collaborators ε) (state : module_manager × ε) :
    manager_call → module_manager × ε
  | .map_module file =>
    ((state.1.map_module C file state.2).manager, (state.1.map_module C file state.2).emu)
  | .unmap address =>
    ((state.1.unmap C address state.2).manager, (state.1.unmap C address state.2).emu)

/-- The leading occurrences of the NT-namespace prefix removed from a path, as
the spec words it. -/
def strip_nt_prefixes : List Nat → List Nat
  | 92 :: 63 :: 63 :: 92 :: rest => strip_nt_prefixes rest
  | file => file

/-- The elements of a path for the examples: the file names between the
separators `/` and `\`, a doubled separator counting once.  `cur` is the
element being read. -/
def path_elements : List Nat → List Nat → List (List Nat)
  | cur, [] => if cur = [] then [] else [cur]
  | cur, ch :: rest =>
    if ch = 47 ∨ ch = 92 then
      if cur = [] then path_elements [] rest else cur :: path_elements [] rest
    else path_elements (cur ++ [ch]) rest

/-- Collaborators for the examples, over an emulator that only counts the
images it has loaded: every path is already canonical; two paths are equal
when they have the same elements; the loader refuses the file
`C:\missing.dll` and otherwise returns the record of `ntdll` with the path it
was given, at a fresh image base. -/
def example_collaborators : collaborators Nat where
  canonical_absolute := some
  path_equal := fun p q => decide (path_elements [] p = path_elements [] q)
  path_equal_refl := fun _ => decide_eq_true rfl
  path_equal_symm := fun _ _ h => decide_eq_true (of_decide_eq_true h).symm
  path_equal_trans := fun _ _ _ h1 h2 =>
    decide_eq_true ((of_decide_eq_true h1).trans (of_decide_eq_true h2))
  map_module_from_file := fun emu canonical_file =>
    if canonical_file = text "C:\\missing.dll" then (none, emu)
    else (some { ntdll with path := canonical_file, image_base := 0x10000 * (emu + 1) },
      emu + 1)
  unmap_module := fun emu _ => emu

/-- Collaborators whose loader places every image at the base `0x7FF00000`;
two paths are equal when their strings are. -/
def colliding_collaborators : collaborators Unit where
  canonical_absolute := some
  path_equal := fun p q => decide (p = q)
  path_equal_refl := fun _ => decide_eq_true rfl
  path_equal_symm := fun _ _ h => decide_eq_true (of_decide_eq_true h).symm
  path_equal_trans := fun _ _ _ h1 h2 =>
    decide_eq_true ((of_decide_eq_true h1).trans (of_decide_eq_true h2))
  map_module_from_file := fun emu canonical_file =>
    (some { ntdll with path := canonical_file }, emu)
  unmap_module := fun emu _ => emu

/-- Modelled from the spec: what the spec says of the mapping collaborator
`load(context, canonical_path)`, whose code is not among the sources, at one
state of the table and of the emulator.  The record it returns is the record
of the file it was given: its path is the canonical path passed.  The address
range it allocates overlaps no mapped image ("guaranteed by the external
mapping collaborator"), so the image base of the record is not the base of a
record of the table. -/
def loader_contract {ε : Type} (C : collaborators ε) (m : module_manager)
    (emu : ε) : Prop :=
  ∀ canonical_file mod emu1,
    C.map_module_from_file emu canonical_file = (some mod, emu1) →
    mod.path = canonical_file ∧ mod.image_base ∉ m.modules_.map Prod.fst

/-- The event is a call of the loader. -/
def event.is_load : event → Bool
  | .load _ => true
  | _ => false

-- ## Lemmas

namespace utils

theorem toLE_length (k n : Nat) : (toLE k n).length = k := by
  induction k generalizing n with
  | zero => rfl
  | succ k ih => simp [toLE, ih]

theorem fromLE_toLE (k n : Nat) : fromLE (toLE k n) = n % 256 ^ k := by
  induction k generalizing n with
  | zero => simp [toLE, fromLE, Nat.mod_one]
  | succ k ih =>
    simp only [toLE, fromLE, ih]
    rw [pow_succ, Nat.mul_comm (256 ^ k) 256, Nat.mod_mul]

theorem fromLE_lt (bs : List Byte) : fromLE bs < 256 ^ bs.length := by
  induction bs with
  | nil => simp [fromLE]
  | cons b bs ih =>
    simp only [fromLE, List.length_cons, pow_succ]
    have := b.isLt
    omega

theorem toLE_fromLE (bs : List Byte) : toLE bs.length (fromLE bs) = bs := by
  induction bs with
  | nil => rfl
  | cons b bs ih =>
    have hb := b.isLt
    simp only [List.length_cons, toLE, fromLE]
    have h1 : (b.val + 256 * fromLE bs) % 256 = b.val := by omega
    have h2 : (b.val + 256 * fromLE bs) / 256 = fromLE bs := by omega
    rw [h2, ih]
    congr 1
    exact Fin.ext h1

theorem toLE_mod (k n : Nat) : toLE k (n % 256 ^ k) = toLE k n := by
  have h := toLE_fromLE (toLE k n)
  rw [toLE_length, fromLE_toLE] at h
  exact h

theorem Extends.refl (a : List Byte) : Extends a a := ⟨[], by simp⟩

theorem Extends.trans {a b c : List Byte} (h1 : Extends a b) (h2 : Extends b c) :
    Extends a c := by
  obtain ⟨t, rfl⟩ := h1
  obtain ⟨u, rfl⟩ := h2
  exact ⟨t ++ u, by simp⟩

theorem Extends.length_le {a b : List Byte} (h : Extends a b) : a.length ≤ b.length := by
  obtain ⟨t, rfl⟩ := h
  simp

theorem write_extends (canary : Bool) (p : List Byte) (s : buffer_serializer) :
    Extends s.buffer_ (s.write canary p).buffer_ := by
  cases canary
  · exact ⟨p, rfl⟩
  · exact ⟨p ++ toLE 8 (s.buffer_.length % 2 ^ 64), by simp [buffer_serializer.write]⟩

theorem write_length (canary : Bool) (p : List Byte) (s : buffer_serializer) :
    (s.write canary p).buffer_.length
      = s.buffer_.length + p.length + (if canary then 8 else 0) := by
  cases canary <;> simp [buffer_serializer.write, toLE_length, Nat.add_assoc]

/-- Reading back, at the cursor where it was written, one raw write. -/
theorem read_data_written (canary : Bool) (p : List Byte) (s : buffer_serializer)
    (B : List Byte) (hB : Extends (s.write canary p).buffer_ B)
    (hlen : (s.write canary p).buffer_.length < 2 ^ 64) :
    buffer_deserializer.read_data canary p.length ⟨B, s.buffer_.length⟩
      = (.ok ⟨s.buffer_.length, p.length⟩, ⟨B, (s.write canary p).buffer_.length⟩) := by
  obtain ⟨t, rfl⟩ := hB
  rw [write_length] at hlen
  cases canary
  · simp only [buffer_serializer.write, Bool.false_eq_true, if_false] at *
    have h1 : (s.buffer_.length + p.length) % 18446744073709551616
        = s.buffer_.length + p.length := by omega
    simp [buffer_deserializer.read_data, h1]
  · simp only [buffer_serializer.write, if_true] at *
    have h1 : (s.buffer_.length + p.length) % 18446744073709551616
        = s.buffer_.length + p.length := by omega
    have h2 : (s.buffer_.length + (p.length + 8)) % 18446744073709551616
        = s.buffer_.length + (p.length + 8) := by omega
    have h3 : s.buffer_.length % 18446744073709551616 = s.buffer_.length := by omega
    have h4 : List.take 8 (List.drop (s.buffer_.length + p.length)
        (s.buffer_ ++ (p ++ (toLE 8 s.buffer_.length ++ t)))) = toLE 8 s.buffer_.length := by
      rw [← List.append_assoc, List.drop_left' (by simp),
        List.take_left' (toLE_length _ _)]
    have h5 : fromLE (toLE 8 s.buffer_.length) = s.buffer_.length := by
      rw [fromLE_toLE]; omega
    simp [buffer_deserializer.read_data, h1, h2, h3, h4, h5, toLE_length, Nat.add_assoc]

theorem read_written (canary : Bool) (p : List Byte) (s : buffer_serializer)
    (B : List Byte) (hB : Extends (s.write canary p).buffer_ B)
    (hlen : (s.write canary p).buffer_.length < 2 ^ 64) :
    buffer_deserializer.read canary p.length ⟨B, s.buffer_.length⟩
      = (.ok p, ⟨B, (s.write canary p).buffer_.length⟩) := by
  unfold buffer_deserializer.read
  rw [read_data_written canary p s B hB hlen]
  obtain ⟨t, rfl⟩ := hB
  have : (s.write canary p).buffer_
      = s.buffer_ ++ (p ++ if canary then toLE 8 (s.buffer_.length % 2 ^ 64) else []) := by
    cases canary <;> simp [buffer_serializer.write]
  simp [span.bytes, this]

theorem raw_lawful (w : Nat) (canary : Bool) : Lawful (raw w) canary := by
  refine ⟨fun v s => write_extends canary _ s, ?_⟩
  intro v hv s B object hB hlen
  have h := read_written canary (toLE w v) s B hB hlen
  rw [toLE_length] at h
  simp only [raw] at *
  rw [h]
  simp only [fromLE_toLE]
  rw [Nat.mod_eq_of_lt hv]

end utils

namespace utils

theorem read_value_written {α : Type} {S : Serial α} {canary : Bool}
    (hS : Lawful S canary) (v : α) (hv : S.valid v) (s : buffer_serializer)
    (B : List Byte) (hB : Extends (S.write canary v s).buffer_ B)
    (hlen : (S.write canary v s).buffer_.length < 2 ^ 64) :
    buffer_deserializer.read_value S canary ⟨B, s.buffer_.length⟩
      = (.ok v, ⟨B, (S.write canary v s).buffer_.length⟩) := by
  unfold buffer_deserializer.read_value
  rw [hS.2 v hv s B S.zero hB hlen]

theorem foldl_write_extends {β : Type} (f : buffer_serializer → β → buffer_serializer)
    (hf : ∀ s x, Extends s.buffer_ (f s x).buffer_) (xs : List β)
    (s : buffer_serializer) : Extends s.buffer_ (xs.foldl f s).buffer_ := by
  induction xs generalizing s with
  | nil => exact Extends.refl _
  | cons x xs ih => exact Extends.trans (hf s x) (ih (f s x))

theorem write_span_extends {α : Type} {S : Serial α} {canary : Bool}
    (hS : Lawful S canary) (vec : List α) (s : buffer_serializer) :
    Extends s.buffer_ (s.write_span S canary vec).buffer_ :=
  Extends.trans (write_extends canary _ s)
    (foldl_write_extends _ (fun s1 v => hS.1 v s1) vec _)

theorem read_vector_loop_written {α : Type} {S : Serial α} {canary : Bool}
    (hS : Lawful S canary) (vec : List α) (hvec : ∀ v ∈ vec, S.valid v)
    (s : buffer_serializer) (acc : List α) (B : List Byte)
    (hB : Extends (vec.foldl (fun s1 v => S.write canary v s1) s).buffer_ B)
    (hlen : (vec.foldl (fun s1 v => S.write canary v s1) s).buffer_.length < 2 ^ 64) :
    buffer_deserializer.read_vector_loop S canary vec.length acc ⟨B, s.buffer_.length⟩
      = ⟨none, acc ++ vec,
          ⟨B, (vec.foldl (fun s1 v => S.write canary v s1) s).buffer_.length⟩⟩ := by
  induction vec generalizing s acc with
  | nil => simp [buffer_deserializer.read_vector_loop]
  | cons v vec ih =>
    simp only [List.foldl_cons, List.length_cons] at *
    have hext := foldl_write_extends (fun s1 v => S.write canary v s1)
      (fun s1 v => hS.1 v s1) vec (S.write canary v s)
    have h1 := read_value_written hS v (hvec v (List.mem_cons_self _ _)) s B
      (Extends.trans hext hB) (lt_of_le_of_lt hext.length_le hlen)
    unfold buffer_deserializer.read_vector_loop
    rw [h1]
    simp only
    rw [ih (fun x hx => hvec x (List.mem_cons_of_mem _ hx)) _ _ hB hlen]
    simp

theorem read_vector_written {α : Type} {S : Serial α} {canary : Bool}
    (hS : Lawful S canary) (vec : List α) (hvec : ∀ v ∈ vec, S.valid v)
    (hsize : vec.length < 2 ^ 64) (max_size : Nat) (hmax : vec.length ≤ max_size)
    (s : buffer_serializer) (result : List α) (B : List Byte)
    (hB : Extends (s.write_span S canary vec).buffer_ B)
    (hlen : (s.write_span S canary vec).buffer_.length < 2 ^ 64) :
    buffer_deserializer.read_vector S canary max_size result ⟨B, s.buffer_.length⟩
      = ⟨none, vec, ⟨B, (s.write_span S canary vec).buffer_.length⟩⟩ := by
  unfold buffer_serializer.write_span at hB hlen ⊢
  have hext := foldl_write_extends (fun s1 v => S.write canary v s1)
    (fun s1 v => hS.1 v s1) vec ((raw 8).write canary (vec.length % 2 ^ 64) s)
  have hv : (raw 8).valid (vec.length % 2 ^ 64) := by
    show vec.length % 2 ^ 64 < 256 ^ 8
    omega
  have h1 := read_value_written (raw_lawful 8 canary) _ hv s B
    (Extends.trans hext hB) (lt_of_le_of_lt hext.length_le hlen)
  unfold buffer_deserializer.read_vector
  rw [h1]
  simp only
  rw [Nat.mod_eq_of_lt hsize] at *
  rw [if_neg (Nat.not_lt.mpr hmax), read_vector_loop_written hS vec hvec _ [] B hB hlen]
  simp

theorem read_string_loop_eq (w : Nat) (canary : Bool) (n : Nat) (acc : List Nat)
    (d : buffer_deserializer) :
    d.read_string_loop w canary n acc = d.read_vector_loop (raw w) canary n acc := by
  induction n generalizing acc d with
  | zero => rfl
  | succ n ih =>
    unfold buffer_deserializer.read_string_loop buffer_deserializer.read_vector_loop
    cases h : d.read_value (raw w) canary with
    | mk r d1 =>
      cases r with
      | error e => rfl
      | ok v => exact ih _ _

theorem read_string_eq (w : Nat) (canary : Bool) (max_size : Nat)
    (result : List Nat) (d : buffer_deserializer) :
    d.read_string w canary max_size result
      = d.read_vector (raw w) canary max_size result := by
  unfold buffer_deserializer.read_string buffer_deserializer.read_vector
  cases h : d.read_value (raw 8) canary with
  | mk r d1 =>
    cases r with
    | error e => rfl
    | ok v =>
      simp only
      split_ifs
      · rfl
      · exact read_string_loop_eq _ _ _ _ _

theorem basic_string_lawful (w max_size : Nat) (canary : Bool) :
    Lawful (basic_string w max_size) canary := by
  refine ⟨fun v s => write_span_extends (raw_lawful w canary) v s, ?_⟩
  intro v hv s B object hB hlen
  have h := read_vector_written (raw_lawful w canary) v hv.2.2 hv.1 max_size hv.2.1
    s [] B hB hlen
  show (match buffer_deserializer.read_string_value w canary max_size
      ⟨B, s.buffer_.length⟩ with
    | (.ok str, d1) => (⟨none, str, d1⟩ : Outcome (List Nat))
    | (.error e, d1) => ⟨some e, object, d1⟩) = _
  unfold buffer_deserializer.read_string_value
  rw [read_string_eq, h]
  rfl

end utils

namespace utils

theorem map_assign_append {κ α : Type} [LinearOrder κ] (key : κ) (value : α)
    (m : List (κ × α)) (h : ∀ entry ∈ m, entry.1 < key) :
    map_assign key value m = m ++ [(key, value)] := by
  induction m with
  | nil => rfl
  | cons entry rest ih =>
    have h1 : entry.1 < key := h entry (List.mem_cons_self _ _)
    simp only [map_assign, List.cons_append]
    rw [if_neg (not_lt.mpr h1.le), if_neg (ne_of_gt h1),
      ih (fun e he => h e (List.mem_cons_of_mem _ he))]

theorem write_map_extends {κ α : Type} {K : Serial κ} {V : Serial α} {canary : Bool}
    (hK : Lawful K canary) (hV : Lawful V canary) (m : List (κ × α))
    (s : buffer_serializer) :
    Extends s.buffer_ (s.write_map K V canary m).buffer_ :=
  Extends.trans (write_extends canary (toLE 8 (m.length % 2 ^ 64)) s)
    (foldl_write_extends
      (fun s1 (e : κ × α) => V.write canary e.2 (K.write canary e.1 s1))
      (fun s1 e => Extends.trans (hK.1 e.1 s1) (hV.1 e.2 _)) m _)

theorem read_map_loop_written {κ α : Type} [LinearOrder κ] {K : Serial κ}
    {V : Serial α} {canary : Bool} (hK : Lawful K canary) (hV : Lawful V canary)
    (m : List (κ × α)) (hm : ∀ e ∈ m, K.valid e.1 ∧ V.valid e.2)
    (s : buffer_serializer) (acc : List (κ × α))
    (hsorted : ((acc ++ m).map Prod.fst).Pairwise (· < ·)) (B : List Byte)
    (hB : Extends (m.foldl (fun s1 e => V.write canary e.2 (K.write canary e.1 s1)) s).buffer_ B)
    (hlen : (m.foldl (fun s1 e => V.write canary e.2 (K.write canary e.1 s1)) s).buffer_.length
      < 2 ^ 64) :
    buffer_deserializer.read_map_loop K V canary m.length acc ⟨B, s.buffer_.length⟩
      = ⟨none, acc ++ m,
          ⟨B, (m.foldl (fun s1 e => V.write canary e.2 (K.write canary e.1 s1)) s).buffer_.length⟩⟩ := by
  induction m generalizing s acc with
  | nil => simp [buffer_deserializer.read_map_loop]
  | cons e m ih =>
    simp only [List.foldl_cons, List.length_cons] at *
    have hext := foldl_write_extends
      (fun s1 (e : κ × α) => V.write canary e.2 (K.write canary e.1 s1))
      (fun s1 e => Extends.trans (hK.1 e.1 s1) (hV.1 e.2 _)) m
      (V.write canary e.2 (K.write canary e.1 s))
    have hVext := hV.1 e.2 (K.write canary e.1 s)
    have hv := hm e (List.mem_cons_self _ _)
    have h1 := read_value_written hK e.1 hv.1 s B
      (Extends.trans hVext (Extends.trans hext hB))
      (lt_of_le_of_lt (le_trans hVext.length_le hext.length_le) hlen)
    have h2 := read_value_written hV e.2 hv.2 (K.write canary e.1 s) B
      (Extends.trans hext hB) (lt_of_le_of_lt hext.length_le hlen)
    unfold buffer_deserializer.read_map_loop
    rw [h1]
    simp only
    rw [h2]
    simp only
    have hacc : ∀ x ∈ acc, x.1 < e.1 := by
      intro x hx
      rw [List.map_append, List.pairwise_append] at hsorted
      exact hsorted.2.2 x.1 (List.mem_map_of_mem _ hx) e.1 (by simp)
    rw [map_assign_append _ _ _ hacc]
    rw [ih (fun x hx => hm x (List.mem_cons_of_mem _ hx)) _ _ (by simpa using hsorted) hB hlen]
    simp

theorem read_map_written {κ α : Type} [LinearOrder κ] {K : Serial κ}
    {V : Serial α} {canary : Bool} (hK : Lawful K canary) (hV : Lawful V canary)
    (m : List (κ × α)) (hm : ∀ e ∈ m, K.valid e.1 ∧ V.valid e.2)
    (hsize : m.length < 2 ^ 64) (hsorted : (m.map Prod.fst).Pairwise (· < ·))
    (s : buffer_serializer) (dest : List (κ × α)) (B : List Byte)
    (hB : Extends (s.write_map K V canary m).buffer_ B)
    (hlen : (s.write_map K V canary m).buffer_.length < 2 ^ 64) :
    buffer_deserializer.read_map K V canary dest ⟨B, s.buffer_.length⟩
      = ⟨none, m, ⟨B, (s.write_map K V canary m).buffer_.length⟩⟩ := by
  unfold buffer_serializer.write_map at hB hlen ⊢
  have hext := foldl_write_extends
    (fun s1 (e : κ × α) => V.write canary e.2 (K.write canary e.1 s1))
    (fun s1 e => Extends.trans (hK.1 e.1 s1) (hV.1 e.2 _)) m
    ((raw 8).write canary (m.length % 2 ^ 64) s)
  have hv : (raw 8).valid (m.length % 2 ^ 64) := by
    show m.length % 2 ^ 64 < 256 ^ 8
    omega
  have h1 := read_value_written (raw_lawful 8 canary) _ hv s B
    (Extends.trans hext hB) (lt_of_le_of_lt hext.length_le hlen)
  unfold buffer_deserializer.read_map
  rw [h1]
  simp only
  rw [Nat.mod_eq_of_lt hsize] at *
  rw [read_map_loop_written hK hV m hm _ [] (by simpa using hsorted) B hB hlen]
  simp

@[simp] theorem Outcome.next_none {σ : Type} (object : σ) (d : buffer_deserializer)
    (f : σ → buffer_deserializer → Outcome σ) :
    (⟨none, object, d⟩ : Outcome σ).next f = f object d := rfl

theorem Outcome.member_written {σ β : Type} (get : σ → β) (set : σ → β → σ)
    (r : β → buffer_deserializer → Outcome β) (object : σ)
    (d d1 : buffer_deserializer) (v : β) (h : r (get object) d = ⟨none, v, d1⟩) :
    Outcome.member get set r object d = ⟨none, set object v, d1⟩ := by
  simp [Outcome.member, h]

end utils

theorem exported_symbol_lawful (A : member_sizes) (canary : Bool) :
    Lawful (exported_symbol.serial A) canary := by
  constructor
  · intro v s
    exact Extends.trans ((basic_string_lawful 1 A.string_max_size canary).1 _ _)
      (Extends.trans ((raw_lawful _ canary).1 _ _)
        (Extends.trans ((raw_lawful _ canary).1 _ _) ((raw_lawful _ canary).1 _ _)))
  · intro v hv s B object hB hlen
    obtain ⟨hname, hord, hrva, haddr⟩ := hv
    show deserialize_exported_symbol A canary object _ = ⟨none, v, ⟨B, (serialize_exported_symbol A canary v s).buffer_.length⟩⟩
    change Extends (serialize_exported_symbol A canary v s).buffer_ B at hB
    change (serialize_exported_symbol A canary v s).buffer_.length < 2 ^ 64 at hlen
    simp only [serialize_exported_symbol] at hB hlen ⊢
    have e4 := (raw_lawful A.address canary).1 v.address
      ((raw A.rva).write canary v.rva ((raw A.ordinal).write canary v.ordinal
        ((basic_string 1 A.string_max_size).write canary v.name s)))
    have e3 := (raw_lawful A.rva canary).1 v.rva ((raw A.ordinal).write canary v.ordinal
        ((basic_string 1 A.string_max_size).write canary v.name s))
    have e2 := (raw_lawful A.ordinal canary).1 v.ordinal
        ((basic_string 1 A.string_max_size).write canary v.name s)
    have B4 := hB
    have B3 := Extends.trans e4 B4
    have B2 := Extends.trans e3 B3
    have B1 := Extends.trans e2 B2
    have l4 := hlen
    have l3 := lt_of_le_of_lt e4.length_le l4
    have l2 := lt_of_le_of_lt e3.length_le l3
    have l1 := lt_of_le_of_lt e2.length_le l2
    unfold deserialize_exported_symbol
    rw [Outcome.member_written _ _ _ _ _ _ _
      ((basic_string_lawful 1 A.string_max_size canary).2 v.name hname s B object.name B1 l1)]
    rw [Outcome.next_none, Outcome.member_written _ _ _ _ _ _ _
      ((raw_lawful _ canary).2 v.ordinal hord _ B _ B2 l2)]
    rw [Outcome.next_none, Outcome.member_written _ _ _ _ _ _ _
      ((raw_lawful _ canary).2 v.rva hrva _ B _ B3 l3)]
    rw [Outcome.next_none, Outcome.member_written _ _ _ _ _ _ _
      ((raw_lawful _ canary).2 v.address haddr _ B _ B4 l4)]

theorem mapped_module_lawful (A : member_sizes) (canary : Bool) :
    Lawful (mapped_module.serial A) canary := by
  have hstr1 := basic_string_lawful 1 A.string_max_size canary
  have hsym := exported_symbol_lawful A canary
  have hraw := fun w => raw_lawful w canary
  constructor
  · intro v s
    exact Extends.trans (hstr1.1 _ _)
      (Extends.trans ((basic_string_lawful A.wchar A.wstring_max_size canary).1 _ _)
      (Extends.trans ((hraw _).1 _ _)
      (Extends.trans ((hraw _).1 _ _)
      (Extends.trans ((hraw _).1 _ _)
      (Extends.trans (write_span_extends hsym _ _)
        (write_map_extends (hraw _) hstr1 _ _))))))
  · intro v hv s B object hB hlen
    obtain ⟨hname, hpath, hbase, hsize, hentry, ⟨hexl, hexm, hexv⟩, hanl, hans, hanv⟩ := hv
    show deserialize_mapped_module A canary object _
      = ⟨none, v, ⟨B, (serialize_mapped_module A canary v s).buffer_.length⟩⟩
    change Extends (serialize_mapped_module A canary v s).buffer_ B at hB
    change (serialize_mapped_module A canary v s).buffer_.length < 2 ^ 64 at hlen
    simp only [serialize_mapped_module] at hB hlen ⊢
    generalize hb1 : s.write_string 1 canary v.name = b1 at hB hlen ⊢
    generalize hb2 : b1.write_string A.wchar canary v.path = b2 at hB hlen ⊢
    generalize hb3 : (raw A.image_base).write canary v.image_base b2 = b3 at hB hlen ⊢
    generalize hb4 : (raw A.size_of_image).write canary v.size_of_image b3 = b4 at hB hlen ⊢
    generalize hb5 : (raw A.entry_point).write canary v.entry_point b4 = b5 at hB hlen ⊢
    generalize hb6 : b5.write_vector (exported_symbol.serial A) canary v.exports = b6
      at hB hlen ⊢
    generalize hb7 : b6.write_map (raw A.address) (basic_string 1 A.string_max_size) canary
      v.address_names = b7
      at hB hlen ⊢
    have e7 : Extends b6.buffer_ b7.buffer_ := hb7 ▸ write_map_extends (hraw _) hstr1 _ _
    have e6 : Extends b5.buffer_ b6.buffer_ := hb6 ▸ write_span_extends hsym _ _
    have e5 : Extends b4.buffer_ b5.buffer_ := hb5 ▸ (hraw _).1 _ _
    have e4 : Extends b3.buffer_ b4.buffer_ := hb4 ▸ (hraw _).1 _ _
    have e3 : Extends b2.buffer_ b3.buffer_ := hb3 ▸ (hraw _).1 _ _
    have B7 := hB
    have B6 := Extends.trans e7 B7
    have B5 := Extends.trans e6 B6
    have B4 := Extends.trans e5 B5
    have B3 := Extends.trans e4 B4
    have B2 := Extends.trans e3 B3
    have l7 := hlen
    have l6 := lt_of_le_of_lt e7.length_le l7
    have l5 := lt_of_le_of_lt e6.length_le l6
    have l4 := lt_of_le_of_lt e5.length_le l5
    have l3 := lt_of_le_of_lt e4.length_le l4
    have l2 := lt_of_le_of_lt e3.length_le l3
    have e2 : Extends b1.buffer_ b2.buffer_ :=
      hb2 ▸ (basic_string_lawful A.wchar A.wstring_max_size canary).1 _ _
    have B1 := Extends.trans e2 B2
    have l1 := lt_of_le_of_lt e2.length_le l2
    have r1 := fun o => hstr1.2 v.name hname s B o (by rw [← hb1] at B1; exact B1)
      (by rw [← hb1] at l1; exact l1)
    have r2 := fun o => (basic_string_lawful A.wchar A.wstring_max_size canary).2 v.path hpath b1 B o
      (by rw [← hb2] at B2; exact B2) (by rw [← hb2] at l2; exact l2)
    have r3 := fun o => (hraw A.image_base).2 v.image_base hbase b2 B o
      (by rw [← hb3] at B3; exact B3) (by rw [← hb3] at l3; exact l3)
    have r4 := fun o => (hraw A.size_of_image).2 v.size_of_image hsize b3 B o
      (by rw [← hb4] at B4; exact B4) (by rw [← hb4] at l4; exact l4)
    have r5 := fun o => (hraw A.entry_point).2 v.entry_point hentry b4 B o
      (by rw [← hb5] at B5; exact B5) (by rw [← hb5] at l5; exact l5)
    have r6 := fun o => read_vector_written hsym v.exports hexv hexl
      A.exports_max_size hexm b5 o B
      (by rw [← hb6] at B6; exact B6) (by rw [← hb6] at l6; exact l6)
    have r7 := fun o => read_map_written (hraw A.address) hstr1 v.address_names hanv hanl hans
      b6 o B (by rw [← hb7] at B7; exact B7)
      (by rw [← hb7] at l7; exact l7)
    have w1 : (basic_string 1 A.string_max_size).write canary v.name s = b1 := hb1
    have w2 : (basic_string A.wchar A.wstring_max_size).write canary v.path b1 = b2 := hb2
    simp only [w1] at r1
    simp only [w2] at r2
    simp only [hb3] at r3
    simp only [hb4] at r4
    simp only [hb5] at r5
    have w6 : b5.write_span (exported_symbol.serial A) canary v.exports = b6 := hb6
    simp only [w6] at r6
    simp only [hb7] at r7
    unfold deserialize_mapped_module
    rw [Outcome.member_written _ _ _ _ _ _ _ (r1 _)]
    rw [Outcome.next_none, Outcome.member_written _ _ _ _ _ _ _ (r2 _)]
    rw [Outcome.next_none, Outcome.member_written _ _ _ _ _ _ _ (r3 _)]
    rw [Outcome.next_none, Outcome.member_written _ _ _ _ _ _ _ (r4 _)]
    rw [Outcome.next_none, Outcome.member_written _ _ _ _ _ _ _ (r5 _)]
    rw [Outcome.next_none, Outcome.member_written _ _ _ _ _ _ _ (r6 _)]
    rw [Outcome.next_none, Outcome.member_written _ _ _ _ _ _ _ (r7 _)]

namespace utils

/-- A read that stays inside the buffer, release build: `read_data` returns the
span `[o, o + N)` and advances the cursor by `N`. -/
theorem read_data_in_bounds (d : buffer_deserializer) (N : Nat)
    (ho : d.offset_ ≤ d.buffer_.length) (hN : N ≤ d.buffer_.length - d.offset_)
    (hs : d.buffer_.length < 2 ^ 64) :
    d.read_data false N = (.ok ⟨d.offset_, N⟩, ⟨d.buffer_, d.offset_ + N⟩) ∧
    (span.bytes d.buffer_ ⟨d.offset_, N⟩).length = N := by
  have h1 : (d.offset_ + N) % 18446744073709551616 = d.offset_ + N := by omega
  constructor
  · simp only [buffer_deserializer.read_data, Nat.reducePow, h1]
    rw [if_neg (by omega)]
    simp
  · simp only [span.bytes, List.length_take, List.length_drop]
    omega

/-- A read of more than the remaining bytes whose end `o + N` still fits in a
`size_t` is refused, in both build modes, and leaves the reader as it was. -/
theorem read_data_out_of_bounds (canary : Bool) (d : buffer_deserializer) (N : Nat)
    (hN : d.buffer_.length < d.offset_ + N) (h64 : d.offset_ + N < 2 ^ 64) :
    d.read_data canary N = (.error .out_of_bounds, d) := by
  have h1 : (d.offset_ + N) % 18446744073709551616 = d.offset_ + N := by omega
  simp only [buffer_deserializer.read_data, Nat.reducePow, h1]
  rw [if_pos (by omega)]

end utils

namespace utils

end utils

namespace utils

end utils

namespace utils

theorem read_data_inv (B : List Byte) (canary : Bool) (length : Nat)
    (d : buffer_deserializer) (h : Inv B d) : Inv B (d.read_data canary length).2 := by
  obtain ⟨hB, ho, h64⟩ := h
  subst hB
  unfold buffer_deserializer.read_data
  simp only [Inv]
  split_ifs <;> simp only [true_and] <;> omega

theorem read_inv (B : List Byte) (canary : Bool) (length : Nat)
    (d : buffer_deserializer) (h : Inv B d) : Inv B (d.read canary length).2 := by
  have h1 := read_data_inv B canary length d h
  unfold buffer_deserializer.read
  cases hr : d.read_data canary length with
  | mk r d1 =>
    rw [hr] at h1
    cases r <;> exact h1

theorem raw_safe (w : Nat) : Safe (raw w) := by
  intro B canary object d h
  have h1 := read_inv B canary w d h
  show Inv B (match d.read canary w with
    | (.ok bytes, d1) => (⟨none, fromLE bytes, d1⟩ : Outcome Nat)
    | (.error e, d1) => ⟨some e, object, d1⟩).reader
  cases hr : d.read canary w with
  | mk r d1 =>
    rw [hr] at h1
    cases r <;> exact h1

theorem read_value_inv {α : Type} {S : Serial α} (hS : Safe S) (B : List Byte)
    (canary : Bool) (d : buffer_deserializer) (h : Inv B d) :
    Inv B (d.read_value S canary).2 := by
  have h1 := hS B canary S.zero d h
  unfold buffer_deserializer.read_value
  cases hr : S.read canary S.zero d with
  | mk err object d1 =>
    rw [hr] at h1
    cases err <;> exact h1

theorem read_vector_loop_inv {α : Type} {S : Serial α} (hS : Safe S) (B : List Byte)
    (canary : Bool) (n : Nat) (acc : List α) (d : buffer_deserializer) (h : Inv B d) :
    Inv B (d.read_vector_loop S canary n acc).reader := by
  induction n generalizing acc d with
  | zero => exact h
  | succ n ih =>
    have h1 := read_value_inv hS B canary d h
    unfold buffer_deserializer.read_vector_loop
    cases hr : d.read_value S canary with
    | mk r d1 =>
      rw [hr] at h1
      cases r with
      | error e => exact h1
      | ok v => exact ih _ _ h1

theorem read_vector_inv {α : Type} {S : Serial α} (hS : Safe S) (B : List Byte)
    (canary : Bool) (max_size : Nat) (result : List α) (d : buffer_deserializer)
    (h : Inv B d) : Inv B (d.read_vector S canary max_size result).reader := by
  have h1 := read_value_inv (raw_safe 8) B canary d h
  unfold buffer_deserializer.read_vector
  cases hr : d.read_value (raw 8) canary with
  | mk r d1 =>
    rw [hr] at h1
    cases r with
    | error e => exact h1
    | ok v =>
      simp only
      split_ifs
      · exact h1
      · exact read_vector_loop_inv hS B canary _ _ _ h1

theorem read_map_loop_inv {κ α : Type} [LinearOrder κ] {K : Serial κ} {V : Serial α}
    (hK : Safe K) (hV : Safe V) (B : List Byte)
    (canary : Bool) (n : Nat) (acc : List (κ × α)) (d : buffer_deserializer)
    (h : Inv B d) : Inv B (d.read_map_loop K V canary n acc).reader := by
  induction n generalizing acc d with
  | zero => exact h
  | succ n ih =>
    have h1 := read_value_inv hK B canary d h
    unfold buffer_deserializer.read_map_loop
    cases hr : d.read_value K canary with
    | mk r d1 =>
      rw [hr] at h1
      cases r with
      | error e => exact h1
      | ok key =>
        have h2 := read_value_inv hV B canary d1 h1
        simp only
        cases hv : d1.read_value V canary with
        | mk r2 d2 =>
          rw [hv] at h2
          cases r2 with
          | error e => exact h2
          | ok value => exact ih _ _ h2

theorem read_map_inv {κ α : Type} [LinearOrder κ] {K : Serial κ} {V : Serial α}
    (hK : Safe K) (hV : Safe V) (B : List Byte)
    (canary : Bool) (map : List (κ × α)) (d : buffer_deserializer) (h : Inv B d) :
    Inv B (d.read_map K V canary map).reader := by
  have h1 := read_value_inv (raw_safe 8) B canary d h
  unfold buffer_deserializer.read_map
  cases hr : d.read_value (raw 8) canary with
  | mk r d1 =>
    rw [hr] at h1
    cases r with
    | error e => exact h1
    | ok v => exact read_map_loop_inv hK hV B canary _ _ _ h1

theorem basic_string_safe (w max_size : Nat) : Safe (basic_string w max_size) := by
  intro B canary object d h
  have h1 := read_vector_inv (raw_safe w) B canary max_size [] d h
  rw [← read_string_eq] at h1
  show Inv B (match d.read_string_value w canary max_size with
    | (.ok str, d1) => (⟨none, str, d1⟩ : Outcome (List Nat))
    | (.error e, d1) => ⟨some e, object, d1⟩).reader
  unfold buffer_deserializer.read_string_value
  cases hr : d.read_string w canary max_size [] with
  | mk err obj d1 =>
    rw [hr] at h1
    cases err <;> exact h1

theorem Outcome.member_inv {σ β : Type} (get : σ → β) (set : σ → β → σ)
    (r : β → buffer_deserializer → Outcome β) (B : List Byte)
    (hr : ∀ o d, Inv B d → Inv B (r o d).reader) (object : σ)
    (d : buffer_deserializer) (h : Inv B d) :
    Inv B (Outcome.member get set r object d).reader :=
  hr _ _ h

theorem Outcome.next_inv {σ : Type} (o : Outcome σ)
    (f : σ → buffer_deserializer → Outcome σ) (B : List Byte)
    (ho : Inv B o.reader) (hf : ∀ x d, Inv B d → Inv B (f x d).reader) :
    Inv B (o.next f).reader := by
  unfold Outcome.next
  cases h : o.error with
  | none => exact hf _ _ ho
  | some e => exact ho

end utils

theorem exported_symbol_safe (A : member_sizes) : Safe (exported_symbol.serial A) := by
  intro B canary object d h
  show Inv B (deserialize_exported_symbol A canary object d).reader
  unfold deserialize_exported_symbol
  refine Outcome.next_inv _ _ B (Outcome.next_inv _ _ B (Outcome.next_inv _ _ B
    (Outcome.member_inv _ _ _ B (fun o d => basic_string_safe 1 _ B canary o d) _ _ h)
    (fun x d => Outcome.member_inv _ _ _ B (fun o d => raw_safe _ B canary o d) x d))
    (fun x d => Outcome.member_inv _ _ _ B (fun o d => raw_safe _ B canary o d) x d))
    (fun x d => Outcome.member_inv _ _ _ B (fun o d => raw_safe _ B canary o d) x d)

theorem mapped_module_safe (A : member_sizes) : Safe (mapped_module.serial A) := by
  intro B canary object d h
  show Inv B (deserialize_mapped_module A canary object d).reader
  unfold deserialize_mapped_module
  refine Outcome.next_inv _ _ B (Outcome.next_inv _ _ B (Outcome.next_inv _ _ B
    (Outcome.next_inv _ _ B (Outcome.next_inv _ _ B (Outcome.next_inv _ _ B
    (Outcome.member_inv _ _ _ B (fun o d => basic_string_safe 1 _ B canary o d) _ _ h)
    (fun x d => Outcome.member_inv _ _ _ B (fun o d => basic_string_safe _ _ B canary o d) x d))
    (fun x d => Outcome.member_inv _ _ _ B (fun o d => raw_safe _ B canary o d) x d))
    (fun x d => Outcome.member_inv _ _ _ B (fun o d => raw_safe _ B canary o d) x d))
    (fun x d => Outcome.member_inv _ _ _ B (fun o d => raw_safe _ B canary o d) x d))
    (fun x d => Outcome.member_inv _ _ _ B
      (fun o d => read_vector_inv (exported_symbol_safe A) B canary _ o d) x d))
    (fun x d => Outcome.member_inv _ _ _ B
      (fun o d => read_map_inv (raw_safe _) (basic_string_safe 1 _) B canary o d) x d)

theorem Ty.serial_safe (T : Ty) : Safe T.serial := by
  cases T with
  | trivial w => exact raw_safe w
  | text w max_size => exact basic_string_safe w max_size
  | symbol A => exact exported_symbol_safe A
  | module A => exact mapped_module_safe A

theorem Call.run_inv (B : List Byte) (canary : Bool) (d : buffer_deserializer)
    (call : Call) (h : Inv B d) : Inv B (call.run canary d) := by
  cases call with
  | read_data length => exact read_data_inv B canary length d h
  | read T object => exact T.serial_safe B canary object d h
  | read_vector T max_size result =>
    exact read_vector_inv T.serial_safe B canary max_size result d h
  | read_string w max_size result =>
    show Inv B (d.read_string w canary max_size result).reader
    rw [read_string_eq]
    exact read_vector_inv (raw_safe w) B canary max_size result d h
  | read_map w T map => exact read_map_inv (raw_safe w) T.serial_safe B canary map d h
  | get_remaining_data => exact read_data_inv B canary _ d h

-- ## Claims

/-- Claim C1.  Round trip of raw values, sequences of raw values and text, in
both build modes: on a serializer that already holds `n` bytes, write a raw
value `v` of `w` bytes, a vector `vec` of such values, or a string `str`
(`write`, `write_vector`, `write_string`); then the mirror read (`read`,
`read_vector`, `read_string`) at cursor `n` over the produced buffer, followed
by any further bytes `rest`, does not throw, leaves the written value in the
destination whatever it held, and leaves the cursor at the end of the bytes
the write produced.  The buffers are those a 64-bit `size_t` can measure, and
the vector and the string written are containers, not larger than the
`max_size()` of their type. -/
theorem C1_round_trip (canary : Bool) (w wc : Nat) (s : buffer_serializer)
    (rest : List Byte) (v : Nat) (vec str : List Nat)
    (object : Nat) (result dest : List Nat) (max_vec max_str : Nat)
    (hv : v < 256 ^ w)
    (hvec : ∀ x ∈ vec, x < 256 ^ w) (hvec_size : vec.length < 2 ^ 64)
    (hvec_max : vec.length ≤ max_vec)
    (hstr : ∀ ch ∈ str, ch < 256 ^ wc) (hstr_size : str.length < 2 ^ 64)
    (hstr_max : str.length ≤ max_str)
    (hlen1 : ((raw w).write canary v s).buffer_.length < 2 ^ 64)
    (hlen2 : (s.write_vector (raw w) canary vec).buffer_.length < 2 ^ 64)
    (hlen3 : (s.write_string wc canary str).buffer_.length < 2 ^ 64) :
    (raw w).read canary object
        ⟨((raw w).write canary v s).buffer_ ++ rest, s.buffer_.length⟩
      = ⟨none, v, ⟨((raw w).write canary v s).buffer_ ++ rest,
          ((raw w).write canary v s).buffer_.length⟩⟩ ∧
    buffer_deserializer.read_vector (raw w) canary max_vec result
        ⟨(s.write_vector (raw w) canary vec).buffer_ ++ rest, s.buffer_.length⟩
      = ⟨none, vec, ⟨(s.write_vector (raw w) canary vec).buffer_ ++ rest,
          (s.write_vector (raw w) canary vec).buffer_.length⟩⟩ ∧
    buffer_deserializer.read_string wc canary max_str dest
        ⟨(s.write_string wc canary str).buffer_ ++ rest, s.buffer_.length⟩
      = ⟨none, str, ⟨(s.write_string wc canary str).buffer_ ++ rest,
          (s.write_string wc canary str).buffer_.length⟩⟩ ∧
    buffer_deserializer.read_value (raw w) canary
        ⟨((raw w).write canary v s).buffer_ ++ rest, s.buffer_.length⟩
      = (.ok v, ⟨((raw w).write canary v s).buffer_ ++ rest,
          ((raw w).write canary v s).buffer_.length⟩) ∧
    buffer_deserializer.read_vector_value (raw w) canary max_vec
        ⟨(s.write_vector (raw w) canary vec).buffer_ ++ rest, s.buffer_.length⟩
      = (.ok vec, ⟨(s.write_vector (raw w) canary vec).buffer_ ++ rest,
          (s.write_vector (raw w) canary vec).buffer_.length⟩) ∧
    buffer_deserializer.read_string_value wc canary max_str
        ⟨(s.write_string wc canary str).buffer_ ++ rest, s.buffer_.length⟩
      = (.ok str, ⟨(s.write_string wc canary str).buffer_ ++ rest,
          (s.write_string wc canary str).buffer_.length⟩) := by
  have h1 := fun o => (raw_lawful w canary).2 v hv s _ o ⟨rest, rfl⟩ hlen1
  have h2 := fun o => read_vector_written (raw_lawful w canary) vec hvec hvec_size
    max_vec hvec_max s o _ ⟨rest, rfl⟩ hlen2
  have h3 := fun o => read_vector_written (raw_lawful wc canary) str hstr hstr_size
    max_str hstr_max s o _ ⟨rest, rfl⟩ hlen3
  refine ⟨h1 object, h2 result, ?_, ?_, ?_, ?_⟩
  · rw [read_string_eq]
    exact h3 dest
  · unfold buffer_deserializer.read_value
    rw [h1]
  · unfold buffer_deserializer.read_vector_value
    simp only [buffer_serializer.write_vector]
    rw [h2]
  · unfold buffer_deserializer.read_string_value
    simp only [buffer_serializer.write_string]
    rw [read_string_eq, h3]

/-- Claim C1 at a concrete input of the debug build: a serializer holding three
bytes, the 64-bit value `0x1122334455667788`, the vector `[1, 2 ^ 64 - 1]` and
the text "hi", with one trailing byte. -/
theorem C1_round_trip_witness :
    (raw 8).read true 7
        ⟨((raw 8).write true 0x1122334455667788 ⟨[1, 2, 3]⟩).buffer_ ++ [9], 3⟩
      = ⟨none, 0x1122334455667788,
          ⟨((raw 8).write true 0x1122334455667788 ⟨[1, 2, 3]⟩).buffer_ ++ [9], 19⟩⟩ ∧
    buffer_deserializer.read_vector (raw 8) true (2 ^ 60) [5, 5, 5]
        ⟨(buffer_serializer.write_vector (raw 8) true [1, 2 ^ 64 - 1] ⟨[1, 2, 3]⟩).buffer_
          ++ [9], 3⟩
      = ⟨none, [1, 2 ^ 64 - 1],
          ⟨(buffer_serializer.write_vector (raw 8) true [1, 2 ^ 64 - 1] ⟨[1, 2, 3]⟩).buffer_
            ++ [9], 51⟩⟩ ∧
    buffer_deserializer.read_string 1 true (2 ^ 63 - 1) [5]
        ⟨(buffer_serializer.write_string 1 true [104, 105] ⟨[1, 2, 3]⟩).buffer_ ++ [9], 3⟩
      = ⟨none, [104, 105],
          ⟨(buffer_serializer.write_string 1 true [104, 105] ⟨[1, 2, 3]⟩).buffer_ ++ [9],
            37⟩⟩ :=
  have h := C1_round_trip true 8 1 ⟨[1, 2, 3]⟩ [9] 0x1122334455667788 [1, 2 ^ 64 - 1]
    [104, 105] 7 [5, 5, 5] [5] (2 ^ 60) (2 ^ 63 - 1) (by decide) (by decide) (by decide)
    (by decide) (by decide) (by decide) (by decide) (by decide) (by decide) (by decide)
  ⟨h.1, h.2.1, h.2.2.1⟩

/-- Claim C2.  Round trip of associative maps, in both build modes: for a
`std::map` `m` (entries by strictly increasing key, so keys are unique) whose
key and value types obey the round-trip law (raw values and strings do, see
`raw_lawful` and `basic_string_lawful`), `write_map` on a serializer holding
`n` bytes followed by `read_map` at cursor `n` into any destination `dest`
does not throw, leaves exactly `m` in the destination and the cursor at the
end of the written bytes. -/
theorem C2_map_round_trip {κ α : Type} [LinearOrder κ] (K : Serial κ)
    (V : Serial α) (canary : Bool) (hK : Lawful K canary) (hV : Lawful V canary)
    (m dest : List (κ × α)) (s : buffer_serializer) (rest : List Byte)
    (hm : ∀ e ∈ m, K.valid e.1 ∧ V.valid e.2)
    (hkeys : (m.map Prod.fst).Pairwise (· < ·))
    (hsize : m.length < 2 ^ 64)
    (hlen : (s.write_map K V canary m).buffer_.length < 2 ^ 64) :
    buffer_deserializer.read_map K V canary dest
        ⟨(s.write_map K V canary m).buffer_ ++ rest, s.buffer_.length⟩
      = ⟨none, m, ⟨(s.write_map K V canary m).buffer_ ++ rest,
          (s.write_map K V canary m).buffer_.length⟩⟩ :=
  read_map_written hK hV m hm hsize hkeys s dest _ ⟨rest, rfl⟩ hlen

/-- Claim C2 at a concrete input of the debug build: the map
`{1 ↦ "a", 7 ↦ ""}` from 64-bit keys to strings, read into a destination that
held `{7 ↦ "zz", 9 ↦ "q"}`. -/
theorem C2_map_round_trip_witness :
    buffer_deserializer.read_map (raw 8) (basic_string 1 (2 ^ 63 - 1)) true
        [(7, [122, 122]), (9, [113])]
        ⟨(buffer_serializer.write_map (raw 8) (basic_string 1 (2 ^ 63 - 1)) true
            [(1, [97]), (7, [])] ⟨[]⟩).buffer_ ++ [], 0⟩
      = ⟨none, [(1, [97]), (7, [])],
          ⟨(buffer_serializer.write_map (raw 8) (basic_string 1 (2 ^ 63 - 1)) true
            [(1, [97]), (7, [])] ⟨[]⟩).buffer_ ++ [], 89⟩⟩ :=
  C2_map_round_trip (raw 8) (basic_string 1 (2 ^ 63 - 1)) true (raw_lawful 8 true)
    (basic_string_lawful 1 (2 ^ 63 - 1) true) [(1, [97]), (7, [])] [(7, [122, 122]), (9, [113])]
    ⟨[]⟩ [] (by simp [raw, basic_string]) (by decide) (by decide) (by decide)

/-- Claim C3.  Snapshot fidelity, in both build modes: for a module table
(a `std::map` by strictly increasing base address) of well-typed records,
`module_manager::serialize` on a serializer holding `n` bytes followed by
`module_manager::deserialize` at cursor `n`, into a manager with any previous
table, does not throw and yields exactly the serialized table: the same keys,
and under each key a record with the same name, path, image base, size, entry
point, exports in the same order and address-name map. -/
theorem C3_snapshot_fidelity (A : member_sizes) (canary : Bool)
    (m fresh : module_manager) (s : buffer_serializer) (rest : List Byte)
    (hm : ∀ e ∈ m.modules_, e.1 < 256 ^ A.key ∧ (mapped_module.serial A).valid e.2)
    (hkeys : (m.modules_.map Prod.fst).Pairwise (· < ·))
    (hsize : m.modules_.length < 2 ^ 64)
    (hlen : (m.serialize A canary s).buffer_.length < 2 ^ 64) :
    fresh.deserialize A canary
        ⟨(m.serialize A canary s).buffer_ ++ rest, s.buffer_.length⟩
      = (none, ⟨m.modules_⟩, ⟨(m.serialize A canary s).buffer_ ++ rest,
          (m.serialize A canary s).buffer_.length⟩) := by
  unfold module_manager.deserialize module_manager.serialize
  rw [read_map_written (raw_lawful A.key canary) (mapped_module_lawful A canary)
    m.modules_ hm hsize hkeys s fresh.modules_ _ ⟨rest, rfl⟩ hlen]

theorem ntdll_valid : (mapped_module.serial member_sizes.win64).valid ntdll := by
  simp [mapped_module.serial, exported_symbol.serial, basic_string, ntdll, text,
    member_sizes.win64]

/-- Claim C3 at the example scenario of the spec: the one-record table
`{0x7FF00000 ↦ ntdll}` of the release build is decoded by a fresh manager to
an equal table. -/
theorem C3_snapshot_fidelity_witness :
    (⟨[]⟩ : module_manager).deserialize member_sizes.win64 false
        ⟨((⟨[(0x7FF00000, ntdll)]⟩ : module_manager).serialize member_sizes.win64 false
          ⟨[]⟩).buffer_ ++ [], 0⟩
      = (none, ⟨[(0x7FF00000, ntdll)]⟩,
          ⟨((⟨[(0x7FF00000, ntdll)]⟩ : module_manager).serialize member_sizes.win64 false
            ⟨[]⟩).buffer_ ++ [], 201⟩) :=
  C3_snapshot_fidelity member_sizes.win64 false ⟨[(0x7FF00000, ntdll)]⟩ ⟨[]⟩ ⟨[]⟩ []
    (by
      intro e he
      simp only [List.mem_singleton] at he
      subst he
      exact ⟨by decide, ntdll_valid⟩)
    (by decide) (by decide) (by decide)

/-- Claim C4, the code at the failing input.  Release build, buffer of 8 bytes,
cursor 1, requested length `2 ^ 64 - 1`: the request exceeds the 7 unread
bytes, but `offset_ + length` wraps to `0`, the bounds check passes and
`read_data` returns a span of `2 ^ 64 - 1` bytes starting at position 1; the
cursor moves back to `0`. -/
theorem C4_read_data_wraps :
    buffer_deserializer.read_data false (2 ^ 64 - 1) ⟨[1, 2, 3, 4, 5, 6, 7, 8], 1⟩
      = (.ok ⟨1, 2 ^ 64 - 1⟩, ⟨[1, 2, 3, 4, 5, 6, 7, 8], 0⟩) ∧
    (2 ^ 64 - 1 >
      (⟨[1, 2, 3, 4, 5, 6, 7, 8], 1⟩ : buffer_deserializer).get_remaining_size) :=
  ⟨rfl, by decide⟩

/-- Claim C6.  Cursor invariant, in both build modes: from a freshly
constructed `buffer_deserializer` (cursor 0), after any sequence of calls of
`read_data`, `read`, `read_vector`, `read_string`, `read_map` and
`get_remaining_data`, returning or throwing, with any arguments, the reader
still borrows the same buffer, its cursor is at most the buffer length, and
`get_remaining_size` is the true difference `length - cursor`, reduced to a
`size_t`. -/
theorem C6_cursor_invariant (canary : Bool) (buffer : List Byte) (calls : List Call) :
    (calls.foldl (fun d call => call.run canary d)
        (buffer_deserializer.mk_from buffer)).buffer_ = buffer ∧
    (calls.foldl (fun d call => call.run canary d)
        (buffer_deserializer.mk_from buffer)).offset_ ≤ buffer.length ∧
    (calls.foldl (fun d call => call.run canary d)
        (buffer_deserializer.mk_from buffer)).get_remaining_size
      = (buffer.length - (calls.foldl (fun d call => call.run canary d)
          (buffer_deserializer.mk_from buffer)).offset_) % 2 ^ 64 := by
  have key : ∀ (calls : List Call) (d : buffer_deserializer), Inv buffer d →
      Inv buffer (calls.foldl (fun d call => call.run canary d) d) := by
    intro calls
    induction calls with
    | nil => exact fun d h => h
    | cons call calls ih => exact fun d h => ih _ (Call.run_inv buffer canary d call h)
  obtain ⟨h1, h2, h3⟩ := key calls (buffer_deserializer.mk_from buffer)
    ⟨rfl, Nat.zero_le _, by simp [buffer_deserializer.mk_from]⟩
  refine ⟨h1, h2, ?_⟩
  unfold buffer_deserializer.get_remaining_size
  rw [h1]
  omega

/-- Claim C7.  Raw write layout and append-only buffer: the raw
`write(p, len)` turns the buffer `b` into `b ++ p` in the release build and
into `b ++ p ++` (the 8 little-endian bytes of `|b|`) in the debug build, and
in both builds the new buffer is `b` with bytes appended.  In the debug build,
a raw read of `len` bytes at cursor `o` that succeeds has found, right behind
the payload, 8 bytes that encode `o`, and has advanced the cursor by
`len + 8`; positions are `size_t` values, so they are taken modulo `2 ^ 64`,
which changes nothing when `o + len + 8` fits in 64 bits. -/
theorem C7_raw_layout (b p : List Byte) (d d1 : buffer_deserializer) (len : Nat)
    (r : span) (hsize : d.buffer_.length < 2 ^ 64 - 8) (hoff : d.offset_ < 2 ^ 64)
    (hread : d.read_data true len = (.ok r, d1)) :
    ((⟨b⟩ : buffer_serializer).write false p).buffer_ = b ++ p ∧
    ((⟨b⟩ : buffer_serializer).write true p).buffer_ = b ++ p ++ toLE 8 b.length ∧
    (∀ canary, ∃ t, ((⟨b⟩ : buffer_serializer).write canary p).buffer_ = b ++ t) ∧
    (d.buffer_.drop ((d.offset_ + len) % 2 ^ 64)).take 8 = toLE 8 d.offset_ ∧
    d1.offset_ = (d.offset_ + len + 8) % 2 ^ 64 ∧
    d1.buffer_ = d.buffer_ ∧ r = ⟨d.offset_, len⟩ ∧
    (d.offset_ + len + 8 < 2 ^ 64 →
      (d.buffer_.drop (d.offset_ + len)).take 8 = toLE 8 d.offset_ ∧
      d1.offset_ = d.offset_ + len + 8 ∧ d.offset_ + len + 8 ≤ d.buffer_.length) := by
  have hw : ((⟨b⟩ : buffer_serializer).write true p).buffer_ = b ++ p ++ toLE 8 b.length := by
    simp only [buffer_serializer.write, if_true]
    rw [show (2 : Nat) ^ 64 = 256 ^ 8 by norm_num, toLE_mod]
  refine ⟨rfl, hw, ?_, ?_⟩
  · intro canary
    exact write_extends canary p ⟨b⟩
  · unfold buffer_deserializer.read_data at hread
    simp only [if_true, ne_eq, ite_not] at hread
    split_ifs at hread with h1 h2 h3
    · exact absurd hread (by simp)
    · exact absurd hread (by simp)
    swap
    · exact absurd hread (by simp)
    simp only [Prod.mk.injEq, Except.ok.injEq] at hread
    obtain ⟨hr, hd⟩ := hread
    subst hr hd
    simp only at h1 h2 h3 ⊢
    have h4 : d.offset_ % 2 ^ 64 = d.offset_ := Nat.mod_eq_of_lt hoff
    have h5 : ((d.buffer_.drop ((d.offset_ + len) % 2 ^ 64)).take 8).length = 8 := by
      simp only [List.length_take, List.length_drop]
      omega
    have h6 : (d.buffer_.drop ((d.offset_ + len) % 2 ^ 64)).take 8 = toLE 8 d.offset_ := by
      have := toLE_fromLE ((d.buffer_.drop ((d.offset_ + len) % 2 ^ 64)).take 8)
      rw [h5, h3, h4] at this
      exact this.symm
    refine ⟨h6, by omega, trivial, trivial, ?_⟩
    intro h7
    have h8 : (d.offset_ + len) % 2 ^ 64 = d.offset_ + len := Nat.mod_eq_of_lt (by omega)
    rw [h8] at h6
    exact ⟨h6, by omega, by omega⟩

/-- Claim C7 at a concrete input: the payload `[9, 9]` written in the debug
build on the buffer `[1, 2, 3]` and read back at cursor 3. -/
theorem C7_raw_layout_witness :
    ((⟨[1, 2, 3]⟩ : buffer_serializer).write false [9, 9]).buffer_ = [1, 2, 3] ++ [9, 9] ∧
    ((⟨[1, 2, 3]⟩ : buffer_serializer).write true [9, 9]).buffer_
      = [1, 2, 3] ++ [9, 9] ++ toLE 8 3 ∧
    (∀ canary, ∃ t, ((⟨[1, 2, 3]⟩ : buffer_serializer).write canary [9, 9]).buffer_
      = [1, 2, 3] ++ t) ∧
    (([1, 2, 3, 9, 9, 3, 0, 0, 0, 0, 0, 0, 0] : List Byte).drop ((3 + 2) % 2 ^ 64)).take 8
      = toLE 8 3 ∧
    (13 : Nat) = (3 + 2 + 8) % 2 ^ 64 ∧
    ([1, 2, 3, 9, 9, 3, 0, 0, 0, 0, 0, 0, 0] : List Byte)
      = [1, 2, 3, 9, 9, 3, 0, 0, 0, 0, 0, 0, 0] ∧
    (⟨3, 2⟩ : span) = ⟨3, 2⟩ ∧
    (3 + 2 + 8 < 2 ^ 64 →
      (([1, 2, 3, 9, 9, 3, 0, 0, 0, 0, 0, 0, 0] : List Byte).drop (3 + 2)).take 8
        = toLE 8 3 ∧
      (13 : Nat) = 3 + 2 + 8 ∧
      3 + 2 + 8 ≤ ([1, 2, 3, 9, 9, 3, 0, 0, 0, 0, 0, 0, 0] : List Byte).length) :=
  C7_raw_layout [1, 2, 3] [9, 9] ⟨[1, 2, 3, 9, 9, 3, 0, 0, 0, 0, 0, 0, 0], 3⟩
    ⟨[1, 2, 3, 9, 9, 3, 0, 0, 0, 0, 0, 0, 0], 13⟩ 2 ⟨3, 2⟩ (by decide) (by decide) rfl

/-- Claim C8 is false on the code.  Debug build.  A raw field of 16 zero bytes
is written first into an empty buffer (so its canary encodes 0).  A reader
that requests only 8 bytes at cursor 0, a length different from the one
written there, finds the zero bytes 8 to 15 of the payload at the canary
position; they encode the cursor 0 and the read succeeds.  A reader that
requests 17 bytes instead fails with the out-of-bounds error, not with the
corruption error. -/
theorem C8_truncation_undetected :
    buffer_deserializer.read_data true 8
        ⟨((⟨[]⟩ : buffer_serializer).write true (List.replicate 16 0)).buffer_, 0⟩
      = (.ok ⟨0, 8⟩,
          ⟨((⟨[]⟩ : buffer_serializer).write true (List.replicate 16 0)).buffer_, 16⟩) ∧
    buffer_deserializer.read_data true 17
        ⟨((⟨[]⟩ : buffer_serializer).write true (List.replicate 16 0)).buffer_, 0⟩
      = (.error .out_of_bounds,
          ⟨((⟨[]⟩ : buffer_serializer).write true (List.replicate 16 0)).buffer_, 17⟩) :=
  ⟨rfl, rfl⟩

/-- The canary check of `read_data` in the debug build, for a read of `len`
bytes at cursor `o` with `o + len + 8` in the 64-bit range.  If fewer than
`len + 8` bytes remain, the read fails with the out-of-bounds error.
Otherwise it looks at the 8 bytes at `[o + len, o + len + 8)`: if they do not
encode `o` it fails with the corruption error, and if they do it succeeds. -/
theorem read_data_canary_check (d : buffer_deserializer) (len : Nat)
    (h64 : d.offset_ + len + 8 < 2 ^ 64) :
    (d.buffer_.length < d.offset_ + len + 8 →
      (d.read_data true len).1 = .error .out_of_bounds) ∧
    (d.offset_ + len + 8 ≤ d.buffer_.length →
      fromLE ((d.buffer_.drop (d.offset_ + len)).take 8) ≠ d.offset_ →
      d.read_data true len = (.error .mismatch, ⟨d.buffer_, d.offset_ + len⟩)) ∧
    (d.offset_ + len + 8 ≤ d.buffer_.length →
      fromLE ((d.buffer_.drop (d.offset_ + len)).take 8) = d.offset_ →
      d.read_data true len = (.ok ⟨d.offset_, len⟩, ⟨d.buffer_, d.offset_ + len + 8⟩)) := by
  have h1 : (d.offset_ + len) % 2 ^ 64 = d.offset_ + len := Nat.mod_eq_of_lt (by omega)
  have h2 : (d.offset_ + len + 8) % 2 ^ 64 = d.offset_ + len + 8 := Nat.mod_eq_of_lt h64
  have h3 : d.offset_ % 2 ^ 64 = d.offset_ := Nat.mod_eq_of_lt (by omega)
  refine ⟨?_, ?_, ?_⟩
  · intro h
    unfold buffer_deserializer.read_data
    simp only [h1, h2, h3, if_true]
    by_cases h4 : d.offset_ + len > d.buffer_.length
    · rw [if_pos h4]
    · rw [if_neg h4, if_pos (by omega)]
  · intro h hne
    unfold buffer_deserializer.read_data
    simp only [h1, h2, h3, if_true]
    rw [if_neg (by omega), if_neg (by omega), if_pos hne]
  · intro h he
    unfold buffer_deserializer.read_data
    simp only [h1, h2, h3, if_true]
    rw [if_neg (by omega), if_neg (by omega), if_neg (by simpa using he)]

/-- The bytes that the debug-build raw write of `p` appends to a buffer: the
payload and the canary, which encodes the length of the buffer as a `size_t`. -/
theorem write_appended (s : buffer_serializer) (p : List Byte) :
    (s.write true p).buffer_.drop s.buffer_.length
      = p ++ toLE 8 (s.buffer_.length % 2 ^ 64) := by
  show (s.buffer_ ++ p ++ toLE 8 (s.buffer_.length % 2 ^ 64)).drop s.buffer_.length = _
  rw [List.append_assoc, List.drop_left]

/-- Claim C8 as amended.  Debug build, buffers that a 64-bit `size_t` can
measure.  Reordering is always detected: the payload-plus-canary chunk that a
raw write of `p` appended at cursor `o_w` (the length of the buffer `s` it was
written to), standing at a cursor `o` different from `o_w` in any buffer
(`pre` before it, `rest` behind it) and read there with the length it was
written with, makes the read fail with the corruption error.  Truncation is
not always detected: a read of `len` bytes at the cursor where `p` was written,
in the written buffer followed by any further bytes, fails with the
out-of-bounds error if fewer than `len + 8` bytes remain, with the corruption
error if the 8 bytes found at `[o_w + len, o_w + len + 8)` do not encode `o_w`,
and succeeds if they do. -/
theorem C8_canary_detection (s : buffer_serializer) (p pre rest : List Byte) (len : Nat)
    (hs : s.buffer_.length < 2 ^ 64) :
    (pre.length ≠ s.buffer_.length → pre.length + p.length + 8 < 2 ^ 64 →
      buffer_deserializer.read_data true p.length
          ⟨pre ++ (s.write true p).buffer_.drop s.buffer_.length ++ rest, pre.length⟩
        = (.error .mismatch,
            ⟨pre ++ (s.write true p).buffer_.drop s.buffer_.length ++ rest,
              pre.length + p.length⟩)) ∧
    (s.buffer_.length + len + 8 < 2 ^ 64 →
      (((s.write true p).buffer_ ++ rest).length < s.buffer_.length + len + 8 →
        (buffer_deserializer.read_data true len
          ⟨(s.write true p).buffer_ ++ rest, s.buffer_.length⟩).1
          = .error .out_of_bounds) ∧
      (s.buffer_.length + len + 8 ≤ ((s.write true p).buffer_ ++ rest).length →
        fromLE ((((s.write true p).buffer_ ++ rest).drop (s.buffer_.length + len)).take 8)
          ≠ s.buffer_.length →
        buffer_deserializer.read_data true len
            ⟨(s.write true p).buffer_ ++ rest, s.buffer_.length⟩
          = (.error .mismatch,
              ⟨(s.write true p).buffer_ ++ rest, s.buffer_.length + len⟩)) ∧
      (s.buffer_.length + len + 8 ≤ ((s.write true p).buffer_ ++ rest).length →
        fromLE ((((s.write true p).buffer_ ++ rest).drop (s.buffer_.length + len)).take 8)
          = s.buffer_.length →
        buffer_deserializer.read_data true len
            ⟨(s.write true p).buffer_ ++ rest, s.buffer_.length⟩
          = (.ok ⟨s.buffer_.length, len⟩,
              ⟨(s.write true p).buffer_ ++ rest, s.buffer_.length + len + 8⟩))) := by
  refine ⟨?_, ?_⟩
  · intro hne h64
    rw [write_appended, Nat.mod_eq_of_lt hs]
    refine (read_data_canary_check
      ⟨pre ++ (p ++ toLE 8 s.buffer_.length) ++ rest, pre.length⟩ p.length h64).2.1 ?_ ?_
    · simp only [List.length_append, toLE_length]
      omega
    · have hdrop : ((pre ++ (p ++ toLE 8 s.buffer_.length) ++ rest).drop
          (pre.length + p.length)).take 8 = toLE 8 s.buffer_.length := by
        have hre : pre ++ (p ++ toLE 8 s.buffer_.length) ++ rest
            = (pre ++ p) ++ (toLE 8 s.buffer_.length ++ rest) := by
          simp only [List.append_assoc]
        have hl : pre.length + p.length = (pre ++ p).length := by
          rw [List.length_append]
        rw [hre, hl, List.drop_left]
        have h8 : 8 = (toLE 8 s.buffer_.length).length := (toLE_length 8 _).symm
        nth_rewrite 1 [h8]
        rw [List.take_left]
      show fromLE ((((pre ++ (p ++ toLE 8 s.buffer_.length) ++ rest)).drop
        (pre.length + p.length)).take 8) ≠ pre.length
      rw [hdrop, fromLE_toLE]
      have h256 : (256 : Nat) ^ 8 = 2 ^ 64 := by norm_num
      rw [h256, Nat.mod_eq_of_lt hs]
      exact fun h => hne h.symm
  · intro h64
    exact read_data_canary_check ⟨(s.write true p).buffer_ ++ rest, s.buffer_.length⟩ len h64

/-- Claim C8 as amended, at concrete inputs.  The raw writes of `[7]` and then
`[8, 8]` in the debug build give two chunks; with the chunks swapped, the
chunk of `[8, 8]`, written at cursor 9, stands at cursor 0, and reading its two
bytes there fails with the corruption error.  In the written order, reading
two bytes at cursor 0, where one byte was written, fails with the corruption
error as well, because the bytes found at the canary position encode
`2 ^ 56 * 8`, not 0. -/
theorem C8_canary_detection_witness :
    buffer_deserializer.read_data true 2
        ⟨[] ++ (((⟨[]⟩ : buffer_serializer).write true [7]).write true [8, 8]).buffer_.drop 9
            ++ ((⟨[]⟩ : buffer_serializer).write true [7]).buffer_, 0⟩
      = (.error .mismatch,
          ⟨[] ++ (((⟨[]⟩ : buffer_serializer).write true [7]).write true [8, 8]).buffer_.drop 9
            ++ ((⟨[]⟩ : buffer_serializer).write true [7]).buffer_, 0 + 2⟩) ∧
    buffer_deserializer.read_data true 2
        ⟨((⟨[]⟩ : buffer_serializer).write true [7]).buffer_
            ++ [8, 8, 9, 0, 0, 0, 0, 0, 0, 0], 0⟩
      = (.error .mismatch,
          ⟨((⟨[]⟩ : buffer_serializer).write true [7]).buffer_
            ++ [8, 8, 9, 0, 0, 0, 0, 0, 0, 0], 0 + 2⟩) :=
  ⟨(C8_canary_detection ((⟨[]⟩ : buffer_serializer).write true [7]) [8, 8] []
      ((⟨[]⟩ : buffer_serializer).write true [7]).buffer_ 0 (by decide)).1
      (by decide) (by decide),
    ((C8_canary_detection ⟨[]⟩ [7] [] [8, 8, 9, 0, 0, 0, 0, 0, 0, 0] 2 (by decide)).2
      (by decide)).2.1 (by decide) (by decide)⟩


/-- Claim C9.  Sequence layout: `write_vector` is `write_span`, which appends,
in both build modes, the raw write of the 8 bytes of the element count and
then the write of every element in iteration order, and nothing else.  In the
release build, for elements that are raw values of `w` bytes, the new buffer
is the old one followed by the 8-byte count and the `w` bytes of each element
in order, so it grows by exactly `8 + w * vec.size()` bytes; the empty
sequence, of any element type, appends the 8-byte count 0 alone. -/
theorem C9_sequence_layout {α : Type} (S : Serial α) (canary : Bool) (w : Nat)
    (seq : List α) (vec : List Nat) (s : buffer_serializer) :
    s.write_vector S canary seq = s.write_span S canary seq ∧
    s.write_span S canary seq
      = seq.foldl (fun s1 v => S.write canary v s1) (s.write canary (toLE 8 seq.length)) ∧
    (s.write_span (raw w) false vec).buffer_
      = s.buffer_ ++ toLE 8 vec.length ++ (vec.map (toLE w)).flatten ∧
    (s.write_span (raw w) false vec).buffer_.length
      = s.buffer_.length + (8 + w * vec.length) ∧
    (s.write_span S false []).buffer_ = s.buffer_ ++ [0, 0, 0, 0, 0, 0, 0, 0] := by
  have hcount : ∀ n : Nat, toLE 8 (n % 2 ^ 64) = toLE 8 n := by
    intro n
    rw [show (2 : Nat) ^ 64 = 256 ^ 8 by norm_num, toLE_mod]
  have hraw : ∀ (vec : List Nat) (s : buffer_serializer),
      (vec.foldl (fun s1 v => (raw w).write false v s1) s).buffer_
        = s.buffer_ ++ (vec.map (toLE w)).flatten := by
    intro vec
    induction vec with
    | nil => intro s; simp
    | cons v vec ih =>
      intro s
      rw [List.foldl_cons, ih]
      simp [raw, buffer_serializer.write]
  have hflat : ∀ vec : List Nat, (vec.map (toLE w)).flatten.length = w * vec.length := by
    intro vec
    induction vec with
    | nil => rfl
    | cons v vec ih =>
      simp only [List.map_cons, List.flatten_cons, List.length_append, toLE_length, ih,
        List.length_cons, Nat.mul_succ]
      omega
  have h3 : (s.write_span (raw w) false vec).buffer_
      = s.buffer_ ++ toLE 8 vec.length ++ (vec.map (toLE w)).flatten := by
    unfold buffer_serializer.write_span
    rw [hraw]
    simp only [raw, hcount]
    rfl
  refine ⟨rfl, ?_, h3, ?_, ?_⟩
  · unfold buffer_serializer.write_span
    simp only [raw, hcount]
  · rw [h3]
    simp only [List.length_append, toLE_length, hflat, Nat.add_assoc]
  · show s.buffer_ ++ toLE 8 (0 % 2 ^ 64) = _
    congr 1

/-- Claim C10.  Text is encoded as the sequence of its characters, in both
build modes and for any character width: `write_string(s)` and
`write<std::string>(s)` produce the same buffer as `write_vector` on the
vector of the characters of `s`; `read_string(result)` on any reader throws in
the same cases as `read_vector<char>(result)`, leaves the same destination
and the same cursor, and so do the forms that return the value.  Both readers
reserve the announced count, and the two containers have the same
`max_size()`. -/
theorem C10_text_is_sequence (w : Nat) (canary : Bool) (max_size : Nat)
    (str result : List Nat) (s : buffer_serializer) (d : buffer_deserializer) :
    s.write_string w canary str = s.write_vector (raw w) canary str ∧
    (basic_string w max_size).write canary str s = s.write_vector (raw w) canary str ∧
    d.read_string w canary max_size result = d.read_vector (raw w) canary max_size result ∧
    d.read_string_value w canary max_size = d.read_vector_value (raw w) canary max_size := by
  refine ⟨rfl, rfl, read_string_eq w canary max_size result d, ?_⟩
  unfold buffer_deserializer.read_string_value buffer_deserializer.read_vector_value
  rw [read_string_eq]
  generalize d.read_vector (raw w) canary max_size [] = o
  rcases o with ⟨_ | e, object, d1⟩ <;> rfl

-- ## Lemmas on maps, on the remaining-bytes accessor and on the module table

namespace utils

theorem map_find_assign {κ α : Type} [LinearOrder κ] (k key : κ) (value : α)
    (m : List (κ × α)) :
    map_find k (map_assign key value m) = if k = key then some value else map_find k m := by
  induction m with
  | nil => simp [map_assign, map_find]
  | cons entry rest ih =>
    by_cases hk : k = key
    · subst hk
      simp only [map_assign, if_true]
      by_cases h1 : k < entry.1
      · simp [h1, map_find]
      · by_cases h2 : k = entry.1
        · simp [h1, h2, map_find]
        · simp [h1, h2, map_find, ih]
    · simp only [map_assign, if_neg hk]
      by_cases h1 : key < entry.1
      · simp [h1, map_find, hk]
      · by_cases h2 : key = entry.1
        · have h3 : k ≠ entry.1 := fun h => hk (h.trans h2.symm)
          simp [h1, h2, map_find, h3]
        · simp [h1, h2, map_find, ih, hk]

theorem map_assign_keys {κ α : Type} [LinearOrder κ] (k key : κ) (value : α)
    (m : List (κ × α)) :
    k ∈ (map_assign key value m).map Prod.fst ↔ k = key ∨ k ∈ m.map Prod.fst := by
  induction m with
  | nil => simp [map_assign]
  | cons entry rest ih =>
    simp only [map_assign]
    split_ifs with h1 h2
    · simp
    · subst h2; simp
    · simp only [List.map_cons, List.mem_cons, ih]
      tauto

theorem map_assign_sorted {κ α : Type} [LinearOrder κ] (key : κ) (value : α)
    (m : List (κ × α)) (h : (m.map Prod.fst).Pairwise (· < ·)) :
    ((map_assign key value m).map Prod.fst).Pairwise (· < ·) := by
  induction m with
  | nil => simp [map_assign]
  | cons entry rest ih =>
    simp only [List.map_cons, List.pairwise_cons] at h
    simp only [map_assign]
    split_ifs with h1 h2
    · simp only [List.map_cons, List.pairwise_cons, List.mem_cons]
      refine ⟨?_, h⟩
      rintro a (rfl | ha)
      · exact h1
      · exact lt_trans h1 (h.1 a ha)
    · simpa using h
    · simp only [List.map_cons, List.pairwise_cons]
      refine ⟨?_, ih h.2⟩
      intro a ha
      rcases (map_assign_keys a key value rest).mp ha with rfl | ha
      · exact lt_of_le_of_ne (not_lt.mp h1) (Ne.symm h2)
      · exact h.1 a ha

theorem map_assign_length {κ α : Type} [LinearOrder κ] (key : κ) (value : α)
    (m : List (κ × α)) : (map_assign key value m).length ≤ m.length + 1 := by
  induction m with
  | nil => simp [map_assign]
  | cons entry rest ih =>
    simp only [map_assign]
    split_ifs <;> simp only [List.length_cons] <;> omega

theorem map_find_append {κ α : Type} [LinearOrder κ] (k : κ) (m n : List (κ × α)) :
    map_find k (m ++ n) = (map_find k m).orElse (fun _ => map_find k n) := by
  induction m with
  | nil => simp [map_find]
  | cons entry rest ih =>
    simp only [List.cons_append, map_find]
    split_ifs <;> simp [ih]

theorem map_find_isSome {κ α : Type} [LinearOrder κ] (k : κ) (m : List (κ × α)) :
    (map_find k m).isSome ↔ k ∈ m.map Prod.fst := by
  induction m with
  | nil => simp [map_find]
  | cons entry rest ih =>
    simp only [map_find, List.map_cons, List.mem_cons]
    split_ifs with h
    · simp [h]
    · simp [ih, h]

/-- The map that `read_map` builds from the pairs it decodes, in order. -/
theorem map_find_foldl_assign {κ α : Type} [LinearOrder κ] (k : κ)
    (pairs acc : List (κ × α)) :
    map_find k (pairs.foldl (fun m e => map_assign e.1 e.2 m) acc)
      = (map_find k pairs.reverse).orElse (fun _ => map_find k acc) := by
  induction pairs generalizing acc with
  | nil => simp [map_find]
  | cons e pairs ih =>
    rw [List.foldl_cons, ih, List.reverse_cons, map_find_append, map_find_assign]
    cases map_find k pairs.reverse with
    | some v => simp
    | none =>
      simp only [Option.orElse, map_find]
      split_ifs <;> rfl

theorem foldl_assign_sorted {κ α : Type} [LinearOrder κ] (pairs acc : List (κ × α))
    (h : (acc.map Prod.fst).Pairwise (· < ·)) :
    ((pairs.foldl (fun m e => map_assign e.1 e.2 m) acc).map Prod.fst).Pairwise (· < ·) := by
  induction pairs generalizing acc with
  | nil => exact h
  | cons e pairs ih => exact ih _ (map_assign_sorted _ _ _ h)

theorem foldl_assign_length {κ α : Type} [LinearOrder κ] (pairs acc : List (κ × α)) :
    (pairs.foldl (fun m e => map_assign e.1 e.2 m) acc).length
      ≤ acc.length + pairs.length := by
  induction pairs generalizing acc with
  | nil => simp
  | cons e pairs ih =>
    have h1 := ih (map_assign e.1 e.2 acc)
    have h2 := map_assign_length e.1 e.2 acc
    simp only [List.foldl_cons, List.length_cons]
    omega

theorem read_map_loop_pairs {κ α : Type} [LinearOrder κ] {K : Serial κ}
    {V : Serial α} {canary : Bool} (hK : Lawful K canary) (hV : Lawful V canary)
    (pairs : List (κ × α)) (hm : ∀ e ∈ pairs, K.valid e.1 ∧ V.valid e.2)
    (s : buffer_serializer) (acc : List (κ × α)) (B : List Byte)
    (hB : Extends
      (pairs.foldl (fun s1 e => V.write canary e.2 (K.write canary e.1 s1)) s).buffer_ B)
    (hlen :
      (pairs.foldl (fun s1 e => V.write canary e.2 (K.write canary e.1 s1)) s).buffer_.length
        < 2 ^ 64) :
    buffer_deserializer.read_map_loop K V canary pairs.length acc ⟨B, s.buffer_.length⟩
      = ⟨none, pairs.foldl (fun m e => map_assign e.1 e.2 m) acc,
          ⟨B, (pairs.foldl (fun s1 e => V.write canary e.2 (K.write canary e.1 s1))
            s).buffer_.length⟩⟩ := by
  induction pairs generalizing s acc with
  | nil => simp [buffer_deserializer.read_map_loop]
  | cons e m ih =>
    simp only [List.foldl_cons, List.length_cons] at *
    have hext := foldl_write_extends
      (fun s1 (e : κ × α) => V.write canary e.2 (K.write canary e.1 s1))
      (fun s1 e => Extends.trans (hK.1 e.1 s1) (hV.1 e.2 _)) m
      (V.write canary e.2 (K.write canary e.1 s))
    have hVext := hV.1 e.2 (K.write canary e.1 s)
    have hv := hm e (List.mem_cons_self _ _)
    have h1 := read_value_written hK e.1 hv.1 s B
      (Extends.trans hVext (Extends.trans hext hB))
      (lt_of_le_of_lt (le_trans hVext.length_le hext.length_le) hlen)
    have h2 := read_value_written hV e.2 hv.2 (K.write canary e.1 s) B
      (Extends.trans hext hB) (lt_of_le_of_lt hext.length_le hlen)
    unfold buffer_deserializer.read_map_loop
    rw [h1]
    simp only
    rw [h2]
    simp only
    rw [ih (fun x hx => hm x (List.mem_cons_of_mem _ hx)) _ _ hB hlen]

theorem read_map_pairs {κ α : Type} [LinearOrder κ] {K : Serial κ}
    {V : Serial α} {canary : Bool} (hK : Lawful K canary) (hV : Lawful V canary)
    (pairs : List (κ × α)) (hm : ∀ e ∈ pairs, K.valid e.1 ∧ V.valid e.2)
    (hsize : pairs.length < 2 ^ 64)
    (s : buffer_serializer) (dest : List (κ × α)) (B : List Byte)
    (hB : Extends (s.write_map K V canary pairs).buffer_ B)
    (hlen : (s.write_map K V canary pairs).buffer_.length < 2 ^ 64) :
    buffer_deserializer.read_map K V canary dest ⟨B, s.buffer_.length⟩
      = ⟨none, pairs.foldl (fun m e => map_assign e.1 e.2 m) [],
          ⟨B, (s.write_map K V canary pairs).buffer_.length⟩⟩ := by
  unfold buffer_serializer.write_map at hB hlen ⊢
  have hext := foldl_write_extends
    (fun s1 (e : κ × α) => V.write canary e.2 (K.write canary e.1 s1))
    (fun s1 e => Extends.trans (hK.1 e.1 s1) (hV.1 e.2 _)) pairs
    ((raw 8).write canary (pairs.length % 2 ^ 64) s)
  have hv : (raw 8).valid (pairs.length % 2 ^ 64) := by
    show pairs.length % 2 ^ 64 < 256 ^ 8
    omega
  have h1 := read_value_written (raw_lawful 8 canary) _ hv s B
    (Extends.trans hext hB) (lt_of_le_of_lt hext.length_le hlen)
  unfold buffer_deserializer.read_map
  rw [h1]
  simp only
  rw [Nat.mod_eq_of_lt hsize] at *
  rw [read_map_loop_pairs hK hV pairs hm _ [] B hB hlen]

end utils

namespace utils

theorem map_find_eq_none {κ α : Type} [LinearOrder κ] (k : κ) (m : List (κ × α)) :
    map_find k m = none ↔ k ∉ m.map Prod.fst := by
  rw [← map_find_isSome]
  cases map_find k m <;> simp

theorem map_find_mem {κ α : Type} [LinearOrder κ] (k : κ) (v : α) (m : List (κ × α))
    (h : map_find k m = some v) : (k, v) ∈ m := by
  induction m with
  | nil => simp [map_find] at h
  | cons entry rest ih =>
    simp only [map_find] at h
    split_ifs at h with h1
    · simp only [Option.some.injEq] at h
      subst h1 h
      exact List.mem_cons_self _ _
    · exact List.mem_cons_of_mem _ (ih h)

theorem map_find_of_mem {κ α : Type} [LinearOrder κ] (e : κ × α) (m : List (κ × α))
    (hs : (m.map Prod.fst).Pairwise (· < ·)) (h : e ∈ m) : map_find e.1 m = some e.2 := by
  induction m with
  | nil => simp at h
  | cons entry rest ih =>
    simp only [List.map_cons, List.pairwise_cons] at hs
    rcases List.mem_cons.mp h with rfl | h
    · simp [map_find]
    · have hlt : entry.1 < e.1 := hs.1 e.1 (List.mem_map_of_mem _ h)
      simp only [map_find, if_neg (ne_of_gt hlt)]
      exact ih hs.2 h

theorem map_try_emplace_present {κ α : Type} [LinearOrder κ] (key : κ) (value : α)
    (m : List (κ × α)) (hs : (m.map Prod.fst).Pairwise (· < ·))
    (h : key ∈ m.map Prod.fst) : map_try_emplace key value m = m := by
  induction m with
  | nil => simp at h
  | cons entry rest ih =>
    simp only [List.map_cons, List.pairwise_cons] at hs
    simp only [List.map_cons, List.mem_cons] at h
    simp only [map_try_emplace]
    rcases h with h | h
    · rw [if_neg (by rw [h]; exact lt_irrefl _), if_pos h]
    · have hlt : entry.1 < key := hs.1 key h
      rw [if_neg (not_lt.mpr hlt.le), if_neg (ne_of_gt hlt), ih hs.2 h]

theorem map_try_emplace_perm {κ α : Type} [LinearOrder κ] (key : κ) (value : α)
    (m : List (κ × α)) (h : key ∉ m.map Prod.fst) :
    (map_try_emplace key value m).Perm ((key, value) :: m) := by
  induction m with
  | nil => exact List.Perm.refl _
  | cons entry rest ih =>
    simp only [List.map_cons, List.mem_cons, not_or] at h
    simp only [map_try_emplace]
    split_ifs with h1 h2
    · exact List.Perm.refl _
    · exact absurd h2 h.1
    · exact ((ih h.2).cons entry).trans (List.Perm.swap _ _ _)

theorem map_try_emplace_keys {κ α : Type} [LinearOrder κ] (k key : κ) (value : α)
    (m : List (κ × α)) :
    k ∈ (map_try_emplace key value m).map Prod.fst ↔ k = key ∨ k ∈ m.map Prod.fst := by
  induction m with
  | nil => simp [map_try_emplace]
  | cons entry rest ih =>
    simp only [map_try_emplace]
    split_ifs with h1 h2
    · simp
    · subst h2; simp
    · simp only [List.map_cons, List.mem_cons, ih]
      tauto

theorem map_try_emplace_sorted {κ α : Type} [LinearOrder κ] (key : κ) (value : α)
    (m : List (κ × α)) (h : (m.map Prod.fst).Pairwise (· < ·)) :
    ((map_try_emplace key value m).map Prod.fst).Pairwise (· < ·) := by
  induction m with
  | nil => simp [map_try_emplace]
  | cons entry rest ih =>
    simp only [List.map_cons, List.pairwise_cons] at h
    simp only [map_try_emplace]
    split_ifs with h1 h2
    · simp only [List.map_cons, List.pairwise_cons, List.mem_cons]
      refine ⟨?_, h⟩
      rintro a (rfl | ha)
      · exact h1
      · exact lt_trans h1 (h.1 a ha)
    · simpa using h
    · simp only [List.map_cons, List.pairwise_cons]
      refine ⟨?_, ih h.2⟩
      intro a ha
      rcases (map_try_emplace_keys a key value rest).mp ha with rfl | ha
      · exact lt_of_le_of_ne (not_lt.mp h1) (Ne.symm h2)
      · exact h.1 a ha

theorem map_find_try_emplace {κ α : Type} [LinearOrder κ] (k key : κ) (value : α)
    (m : List (κ × α)) (h : key ∉ m.map Prod.fst) :
    map_find k (map_try_emplace key value m)
      = if k = key then some value else map_find k m := by
  induction m with
  | nil => simp [map_try_emplace, map_find]
  | cons entry rest ih =>
    simp only [List.map_cons, List.mem_cons, not_or] at h
    simp only [map_try_emplace, if_neg h.1]
    by_cases h1 : key < entry.1
    · simp [h1, map_find]
    · simp only [if_neg h1, map_find, ih h.2]
      by_cases h2 : k = entry.1
      · have : k ≠ key := fun hk => h.1 (hk.symm.trans h2)
        rw [if_pos h2, if_neg this, if_pos h2]
      · simp [h2]

theorem map_erase_sublist {κ α : Type} [LinearOrder κ] (key : κ) (m : List (κ × α)) :
    (map_erase key m).Sublist m := by
  induction m with
  | nil => exact List.Sublist.refl _
  | cons entry rest ih =>
    simp only [map_erase]
    split_ifs
    · exact List.sublist_cons_self _ _
    · exact ih.cons₂ _

theorem map_erase_mem {κ α : Type} [LinearOrder κ] (key : κ) (m : List (κ × α))
    (hs : (m.map Prod.fst).Pairwise (· < ·)) (e : κ × α) :
    e ∈ map_erase key m ↔ e ∈ m ∧ e.1 ≠ key := by
  induction m with
  | nil => simp [map_erase]
  | cons entry rest ih =>
    simp only [List.map_cons, List.pairwise_cons] at hs
    simp only [map_erase]
    split_ifs with h1
    · subst h1
      simp only [List.mem_cons]
      constructor
      · intro h
        exact ⟨Or.inr h, ne_of_gt (hs.1 e.1 (List.mem_map_of_mem _ h))⟩
      · rintro ⟨rfl | h, hne⟩
        · exact absurd rfl hne
        · exact h
    · simp only [List.mem_cons, ih hs.2]
      constructor
      · rintro (rfl | ⟨h, hne⟩)
        · exact ⟨Or.inl rfl, fun h => h1 h.symm⟩
        · exact ⟨Or.inr h, hne⟩
      · rintro ⟨rfl | h, hne⟩
        · exact Or.inl rfl
        · exact Or.inr ⟨h, hne⟩

theorem map_erase_sorted {κ α : Type} [LinearOrder κ] (key : κ) (m : List (κ × α))
    (hs : (m.map Prod.fst).Pairwise (· < ·)) :
    ((map_erase key m).map Prod.fst).Pairwise (· < ·) :=
  hs.sublist ((map_erase_sublist key m).map Prod.fst)

theorem map_find_erase {κ α : Type} [LinearOrder κ] (k key : κ) (m : List (κ × α))
    (hs : (m.map Prod.fst).Pairwise (· < ·)) :
    map_find k (map_erase key m) = if k = key then none else map_find k m := by
  induction m with
  | nil => simp [map_erase, map_find]
  | cons entry rest ih =>
    simp only [List.map_cons, List.pairwise_cons] at hs
    simp only [map_erase]
    by_cases h1 : key = entry.1
    · subst h1
      simp only [if_true, map_find]
      by_cases h2 : k = entry.1
      · simp only [h2, if_true]
        rw [map_find_eq_none]
        intro hmem
        exact lt_irrefl _ (hs.1 _ hmem)
      · simp [h2]
    · simp only [if_neg h1, map_find, ih hs.2]
      by_cases h2 : k = entry.1
      · have : k ≠ key := fun hk => h1 (hk.symm.trans h2)
        rw [if_pos h2, if_neg this, if_pos h2]
      · simp [h2]

theorem map_erase_length {κ α : Type} [LinearOrder κ] (key : κ) (m : List (κ × α))
    (h : key ∈ m.map Prod.fst) : (map_erase key m).length + 1 = m.length := by
  induction m with
  | nil => simp at h
  | cons entry rest ih =>
    simp only [List.map_cons, List.mem_cons] at h
    simp only [map_erase]
    split_ifs with h1
    · simp
    · rcases h with h | h
      · exact absurd h h1
      · simp only [List.length_cons, ih h]

end utils

theorem canonicalize_module_path_unfold (ca : List Nat → Option (List Nat))
    (file : List Nat) :
    canonicalize_module_path ca file
      = if starts_with file nt_prefix = false then ca file
        else canonicalize_module_path ca (file.drop (List.length nt_prefix)) := by
  rw [canonicalize_module_path]
  split_ifs <;> rfl

theorem starts_with_iff_append (file : List Nat) :
    starts_with file nt_prefix = true ↔ ∃ rest, file = nt_prefix ++ rest := by
  simp only [starts_with, decide_eq_true_eq]
  constructor
  · intro h
    exact ⟨file.drop (List.length nt_prefix), by
      conv_lhs => rw [← List.take_append_drop (List.length nt_prefix) file, h]⟩
  · rintro ⟨rest, rfl⟩
    simp

theorem strip_nt_prefixes_append (rest : List Nat) :
    strip_nt_prefixes ( nt_prefix ++ rest) = strip_nt_prefixes rest := by
  simp [ nt_prefix, strip_nt_prefixes]

theorem strip_nt_prefixes_of_not_starts_with (file : List Nat)
    (h : starts_with file nt_prefix = false) : strip_nt_prefixes file = file := by
  unfold strip_nt_prefixes
  split
  · rename_i rest
    have : starts_with (92 :: 63 :: 63 :: 92 :: rest) nt_prefix = true :=
      (starts_with_iff_append _).mpr ⟨rest, rfl⟩
    rw [this] at h
    exact absurd h (by simp)
  · rfl

theorem canonicalize_module_path_strip (ca : List Nat → Option (List Nat))
    (file : List Nat) :
    canonicalize_module_path ca file = ca (strip_nt_prefixes file) := by
  have key : ∀ (n : Nat) (file : List Nat), file.length ≤ n →
      canonicalize_module_path ca file = ca (strip_nt_prefixes file) := by
    intro n
    induction n with
    | zero =>
      intro file hlen
      have hnil : file = [] := List.length_eq_zero.mp (Nat.le_zero.mp hlen)
      subst hnil
      rw [canonicalize_module_path_unfold]
      rfl
    | succ n ih =>
      intro file hlen
      rw [canonicalize_module_path_unfold]
      by_cases hs : starts_with file nt_prefix = false
      · rw [if_pos hs, strip_nt_prefixes_of_not_starts_with file hs]
      · rw [if_neg hs]
        have hs1 : starts_with file nt_prefix = true := by simpa using hs
        obtain ⟨rest, rfl⟩ := (starts_with_iff_append file).mp hs1
        rw [List.drop_left, strip_nt_prefixes_append]
        exact ih rest (by simp [ nt_prefix] at hlen; omega)
  exact key file.length file (le_refl _)

theorem map_module_hit {ε : Type} (C : collaborators ε) (file c : List Nat)
    (m : module_manager) (emu : ε) (mod : Nat × mapped_module)
    (hc : canonicalize_module_path C.canonical_absolute file = some c)
    (hf : m.modules_.find? (fun mod => C.path_equal mod.2.path c) = some mod) :
    m.map_module C file emu = ⟨.entry mod.1, m, emu, []⟩ := by
  unfold module_manager.map_module
  rw [hc]
  simp only
  rw [hf]

theorem map_module_failed {ε : Type} (C : collaborators ε) (file c : List Nat)
    (m : module_manager) (emu emu1 : ε)
    (hc : canonicalize_module_path C.canonical_absolute file = some c)
    (hf : m.modules_.find? (fun mod => C.path_equal mod.2.path c) = none)
    (hl : C.map_module_from_file emu c = (none, emu1)) :
    m.map_module C file emu = ⟨.nullptr, m, emu1, [.load c, .error file]⟩ := by
  unfold module_manager.map_module
  rw [hc]
  simp only
  rw [hf]
  simp only
  rw [hl]

theorem map_module_loaded {ε : Type} (C : collaborators ε) (file c : List Nat)
    (m : module_manager) (emu emu1 : ε) (mod : mapped_module)
    (hc : canonicalize_module_path C.canonical_absolute file = some c)
    (hf : m.modules_.find? (fun mod => C.path_equal mod.2.path c) = none)
    (hl : C.map_module_from_file emu c = (some mod, emu1)) :
    m.map_module C file emu
      = ⟨.entry mod.image_base, ⟨map_try_emplace mod.image_base mod m.modules_⟩, emu1,
          [.load c, .log mod.path mod.image_base]⟩ := by
  unfold module_manager.map_module
  rw [hc]
  simp only
  rw [hf]
  simp only
  rw [hl]

theorem map_module_threw {ε : Type} (C : collaborators ε) (file : List Nat)
    (m : module_manager) (emu : ε)
    (hc : canonicalize_module_path C.canonical_absolute file = none) :
    m.map_module C file emu = ⟨.threw, m, emu, []⟩ := by
  unfold module_manager.map_module
  rw [hc]

-- ## Claims, continued

/-- Claim C11.  Map decode clears and overwrites, in both build modes: over a
buffer that holds the count `n` and then `n` key/value pairs `pairs`, keys
possibly repeated, written on a serializer holding any bytes, `read_map` into
a destination `dest` with any previous content does not throw and leaves the
map that the assignments `map[key] = value` build from the empty map, in the
order of the stream.  Looking up a key in it gives the value of the last
occurrence of the key in the stream and nothing for a key that does not
occur; its keys are exactly the keys of the stream, in strictly increasing
order, and it has at most `n` entries.  Nothing in it depends on `dest`. -/
theorem C11_read_map_overwrites {κ α : Type} [LinearOrder κ] (K : Serial κ)
    (V : Serial α) (canary : Bool) (hK : Lawful K canary) (hV : Lawful V canary)
    (pairs dest : List (κ × α)) (s : buffer_serializer) (rest : List Byte)
    (hm : ∀ e ∈ pairs, K.valid e.1 ∧ V.valid e.2)
    (hsize : pairs.length < 2 ^ 64)
    (hlen : (s.write_map K V canary pairs).buffer_.length < 2 ^ 64) :
    buffer_deserializer.read_map K V canary dest
        ⟨(s.write_map K V canary pairs).buffer_ ++ rest, s.buffer_.length⟩
      = ⟨none, pairs.foldl (fun m e => map_assign e.1 e.2 m) [],
          ⟨(s.write_map K V canary pairs).buffer_ ++ rest,
            (s.write_map K V canary pairs).buffer_.length⟩⟩ ∧
    (∀ k, map_find k (pairs.foldl (fun m e => map_assign e.1 e.2 m) [])
      = map_find k pairs.reverse) ∧
    (∀ k, k ∈ (pairs.foldl (fun m e => map_assign e.1 e.2 m) []).map Prod.fst
      ↔ k ∈ pairs.map Prod.fst) ∧
    ((pairs.foldl (fun m e => map_assign e.1 e.2 m) []).map Prod.fst).Pairwise (· < ·) ∧
    (pairs.foldl (fun m e => map_assign e.1 e.2 m) []).length ≤ pairs.length := by
  have hfind : ∀ k, map_find k (pairs.foldl (fun m e => map_assign e.1 e.2 m) [])
      = map_find k pairs.reverse := by
    intro k
    rw [map_find_foldl_assign]
    cases map_find k pairs.reverse <;> rfl
  refine ⟨read_map_pairs hK hV pairs hm hsize s dest _ ⟨rest, rfl⟩ hlen, hfind, ?_,
    foldl_assign_sorted pairs [] (by simp), ?_⟩
  · intro k
    rw [← map_find_isSome, hfind, map_find_isSome]
    simp
  · simpa using foldl_assign_length pairs []

/-- Claim C11 at a concrete input of the debug build: the stream
`(7, "a"), (1, "b"), (7, "c")` read into a map that held `{3 ↦ "z"}`. -/
theorem C11_read_map_overwrites_witness :
    (buffer_deserializer.read_map (raw 8) (basic_string 1 (2 ^ 63 - 1)) true [(3, [122])]
        ⟨(buffer_serializer.write_map (raw 8) (basic_string 1 (2 ^ 63 - 1)) true
            [(7, [97]), (1, [98]), (7, [99])] ⟨[]⟩).buffer_ ++ [], 0⟩).object
      = [(1, [98]), (7, [99])] :=
  congrArg Outcome.object
    (C11_read_map_overwrites (raw 8) (basic_string 1 (2 ^ 63 - 1)) true (raw_lawful 8 true)
      (basic_string_lawful 1 (2 ^ 63 - 1) true) [(7, [97]), (1, [98]), (7, [99])] [(3, [122])]
      ⟨[]⟩ [] (by simp [raw, basic_string]) (by decide) (by decide)).1

/-- Claim C12.  Remaining-bytes accessor, release build: for a reader over a
buffer of `s` bytes (a `size_t`) with cursor `o ≤ s`, `get_remaining_size`
is `s - o`; `get_remaining_data` does not throw, returns the span of the
bytes `[o, s)` and leaves the cursor at `s`, where `get_remaining_size` is
0; a second call returns an empty span and leaves the reader there. -/
theorem C12_remaining_data (d : buffer_deserializer)
    (ho : d.offset_ ≤ d.buffer_.length) (hs : d.buffer_.length < 2 ^ 64) :
    d.get_remaining_size = d.buffer_.length - d.offset_ ∧
    d.get_remaining_data false
      = (.ok ⟨d.offset_, d.buffer_.length - d.offset_⟩, ⟨d.buffer_, d.buffer_.length⟩) ∧
    span.bytes d.buffer_ ⟨d.offset_, d.buffer_.length - d.offset_⟩
      = d.buffer_.drop d.offset_ ∧
    (d.get_remaining_data false).2.get_remaining_size = 0 ∧
    (d.get_remaining_data false).2.get_remaining_data false
      = (.ok ⟨d.buffer_.length, 0⟩, ⟨d.buffer_, d.buffer_.length⟩) ∧
    span.bytes d.buffer_ ⟨d.buffer_.length, 0⟩ = [] := by
  have h1 : d.get_remaining_size = d.buffer_.length - d.offset_ := by
    unfold buffer_deserializer.get_remaining_size
    omega
  have h2 : d.get_remaining_data false
      = (.ok ⟨d.offset_, d.buffer_.length - d.offset_⟩, ⟨d.buffer_, d.buffer_.length⟩) := by
    unfold buffer_deserializer.get_remaining_data
    rw [h1, (read_data_in_bounds d _ ho (le_refl _) hs).1]
    congr 2
    omega
  have h3 : (⟨d.buffer_, d.buffer_.length⟩ : buffer_deserializer).get_remaining_size = 0 := by
    unfold buffer_deserializer.get_remaining_size
    simp only
    omega
  refine ⟨h1, h2, ?_, ?_, ?_, ?_⟩
  · simp [span.bytes]
  · rw [h2]
    exact h3
  · rw [h2]
    unfold buffer_deserializer.get_remaining_data
    rw [h3]
    exact (read_data_in_bounds ⟨d.buffer_, d.buffer_.length⟩ 0 (le_refl _)
      (Nat.zero_le _) hs).1
  · simp [span.bytes]

/-- Claim C12 at a concrete input: five bytes, cursor 2. -/
theorem C12_remaining_data_witness :
    (⟨[1, 2, 3, 4, 5], 2⟩ : buffer_deserializer).get_remaining_size = 5 - 2 ∧
    (⟨[1, 2, 3, 4, 5], 2⟩ : buffer_deserializer).get_remaining_data false
      = (.ok ⟨2, 5 - 2⟩, ⟨[1, 2, 3, 4, 5], 5⟩) ∧
    span.bytes [1, 2, 3, 4, 5] ⟨2, 5 - 2⟩ = [3, 4, 5] :=
  have h := C12_remaining_data ⟨[1, 2, 3, 4, 5], 2⟩ (by decide) (by decide)
  ⟨h.1, h.2.1, h.2.2.1⟩

namespace utils

/-- In the debug build `get_remaining_data` cannot return: the request takes
every unread byte as payload, which puts the cursor at the end of the buffer,
and the 8 bytes of the canary are then looked for behind the end. -/
theorem get_remaining_data_debug (d : buffer_deserializer)
    (ho : d.offset_ ≤ d.buffer_.length) (hs : d.buffer_.length + 8 < 2 ^ 64) :
    d.get_remaining_data true
      = (.error .out_of_bounds, ⟨d.buffer_, d.buffer_.length⟩) := by
  have h1 : d.get_remaining_size = d.buffer_.length - d.offset_ := by
    unfold buffer_deserializer.get_remaining_size
    omega
  unfold buffer_deserializer.get_remaining_data
  rw [h1]
  have h2 : (d.offset_ + (d.buffer_.length - d.offset_)) % 2 ^ 64 = d.buffer_.length := by
    omega
  have h3 : (d.buffer_.length + 8) % 2 ^ 64 = d.buffer_.length + 8 := by omega
  simp only [buffer_deserializer.read_data, h2, h3, if_true]
  rw [if_neg (by omega), if_pos (by omega)]

end utils

/-- Claim C13, the code at the failing input.  Debug build: the raw block
`[1, 2, 3]` is the only thing written, so the buffer is the block and its
canary, 11 bytes, and the reader stands at the start of the block.
`get_remaining_size` is 11, `get_remaining_data` requests those 11 bytes,
moves the cursor to the end and throws the out-of-bounds error when it looks
for the 8 canary bytes of its own request. -/
theorem C13_remaining_data_throws :
    ((⟨[]⟩ : buffer_serializer).write true [1, 2, 3]).buffer_
      = [1, 2, 3, 0, 0, 0, 0, 0, 0, 0, 0] ∧
    (⟨[1, 2, 3, 0, 0, 0, 0, 0, 0, 0, 0], 0⟩ : buffer_deserializer).get_remaining_size
      = 11 ∧
    (⟨[1, 2, 3, 0, 0, 0, 0, 0, 0, 0, 0], 0⟩ : buffer_deserializer).get_remaining_data true
      = (.error .out_of_bounds, ⟨[1, 2, 3, 0, 0, 0, 0, 0, 0, 0, 0], 11⟩) :=
  ⟨rfl, rfl, rfl⟩

theorem path_equal_congr {ε : Type} (C : collaborators ε) (q c1 c2 : List Nat)
    (h : C.path_equal c1 c2 = true) : C.path_equal q c1 = C.path_equal q c2 := by
  cases h1 : C.path_equal q c1 with
  | true => exact (C.path_equal_trans q c1 c2 h1 h).symm
  | false =>
    cases h2 : C.path_equal q c2 with
    | false => rfl
    | true =>
      have h3 := C.path_equal_trans q c2 c1 h2 (C.path_equal_symm c1 c2 h)
      rw [h1] at h3
      exact h3

theorem path_equal_false_symm {ε : Type} (C : collaborators ε) (p q : List Nat)
    (h : C.path_equal p q = false) : C.path_equal q p = false := by
  cases h1 : C.path_equal q p with
  | false => rfl
  | true =>
    have h2 := C.path_equal_symm q p h1
    rw [h] at h2
    cases h2

theorem find_path_try_emplace {ε : Type} (C : collaborators ε) (c : List Nat)
    (mod : mapped_module) (m : List (Nat × mapped_module))
    (hpath : C.path_equal mod.path c = true)
    (hf : m.find? (fun e => C.path_equal e.2.path c) = none)
    (hkey : mod.image_base ∉ m.map Prod.fst) :
    (map_try_emplace mod.image_base mod m).find? (fun e => C.path_equal e.2.path c)
      = some (mod.image_base, mod) := by
  induction m with
  | nil => simp [map_try_emplace, hpath]
  | cons entry rest ih =>
    simp only [List.map_cons, List.mem_cons, not_or] at hkey
    simp only [List.find?_cons] at hf
    split at hf
    · exact absurd hf (by simp)
    · rename_i hne
      simp only [map_try_emplace, if_neg hkey.1]
      split_ifs with h1
      · simp [hpath]
      · rw [List.find?_cons, hne]
        exact ih hf hkey.2

/-- The loader of the examples keeps the contract of the mapping collaborator
at every state in which the base it is about to use is free. -/
theorem example_loader_contract (m : module_manager) (emu : Nat)
    (hfree : 0x10000 * (emu + 1) ∉ m.modules_.map Prod.fst) :
    loader_contract example_collaborators m emu := by
  intro canonical_file mod emu1 h
  simp only [example_collaborators] at h
  split_ifs at h
  · simp at h
  · simp only [Prod.mk.injEq, Option.some.injEq] at h
    rw [← h.1]
    exact ⟨rfl, hfree⟩

/-- Claim C14.  Idempotent mapping, on a table kept by strictly increasing
base, for two paths whose canonical forms `c1` and `c2` compare equal, with a
mapping collaborator that keeps its contract (the record it returns carries
the path it was given, at a base that is not a key of the table) and that
succeeds if it is invoked.  Both calls of `map_module` return the entry of one
key, under which the table holds the same record after the first and after
the second call.  The loader is invoked at most once over the two calls.  If
a record whose path compares equal to `c1` is resident, both calls return its
entry, nothing is invoked or logged, and the table and the emulator are
unchanged.  If none is resident, the first call invokes the loader once and
stores the record under its image base, the second call returns that entry
without invoking the loader, and the table has exactly one entry more than
before, the loaded one. -/
theorem C14_idempotent_mapping {ε : Type} (C : collaborators ε) (m : module_manager)
    (emu : ε) (p1 p2 c1 c2 : List Nat)
    (hsorted : (m.modules_.map Prod.fst).Pairwise (· < ·))
    (h1 : canonicalize_module_path C.canonical_absolute p1 = some c1)
    (h2 : canonicalize_module_path C.canonical_absolute p2 = some c2)
    (hsame : C.path_equal c1 c2 = true)
    (hcontract : loader_contract C m emu)
    (hload : m.modules_.find? (fun mod => C.path_equal mod.2.path c1) = none →
      (C.map_module_from_file emu c1).1 ≠ none) :
    (∃ key record,
      (m.map_module C p1 emu).result = .entry key ∧
      map_find key (m.map_module C p1 emu).manager.modules_ = some record ∧
      ((m.map_module C p1 emu).manager.map_module C p2 (m.map_module C p1 emu).emu).result
        = .entry key ∧
      map_find key ((m.map_module C p1 emu).manager.map_module C p2
        (m.map_module C p1 emu).emu).manager.modules_ = some record) ∧
    ((m.map_module C p1 emu).events ++
      ((m.map_module C p1 emu).manager.map_module C p2
        (m.map_module C p1 emu).emu).events).countP event.is_load ≤ 1 ∧
    (∀ e, m.modules_.find? (fun mod => C.path_equal mod.2.path c1) = some e →
      m.map_module C p1 emu = ⟨.entry e.1, m, emu, []⟩ ∧
      (m.map_module C p1 emu).manager.map_module C p2 (m.map_module C p1 emu).emu
        = ⟨.entry e.1, m, emu, []⟩) ∧
    (m.modules_.find? (fun mod => C.path_equal mod.2.path c1) = none →
      ∃ mod emu1, C.map_module_from_file emu c1 = (some mod, emu1) ∧
        m.map_module C p1 emu
          = ⟨.entry mod.image_base, ⟨map_try_emplace mod.image_base mod m.modules_⟩, emu1,
              [.load c1, .log mod.path mod.image_base]⟩ ∧
        (m.map_module C p1 emu).manager.map_module C p2 (m.map_module C p1 emu).emu
          = ⟨.entry mod.image_base, ⟨map_try_emplace mod.image_base mod m.modules_⟩, emu1,
              []⟩ ∧
        (map_try_emplace mod.image_base mod m.modules_).length = m.modules_.length + 1 ∧
        ∀ e, e ∈ map_try_emplace mod.image_base mod m.modules_
          ↔ e = (mod.image_base, mod) ∨ e ∈ m.modules_) := by
  have hpred : (fun (mod : Nat × mapped_module) => C.path_equal mod.2.path c2)
      = (fun (mod : Nat × mapped_module) => C.path_equal mod.2.path c1) :=
    funext (fun mod => (path_equal_congr C mod.2.path c1 c2 hsame).symm)
  have hit : ∀ e, m.modules_.find? (fun mod => C.path_equal mod.2.path c1) = some e →
      m.map_module C p1 emu = ⟨.entry e.1, m, emu, []⟩ ∧
      (m.map_module C p1 emu).manager.map_module C p2 (m.map_module C p1 emu).emu
        = ⟨.entry e.1, m, emu, []⟩ := by
    intro e he
    have h := map_module_hit C p1 c1 m emu e h1 he
    rw [h]
    exact ⟨rfl, map_module_hit C p2 c2 m emu e h2 (by rw [hpred]; exact he)⟩
  have miss : m.modules_.find? (fun mod => C.path_equal mod.2.path c1) = none →
      ∃ mod emu1, C.map_module_from_file emu c1 = (some mod, emu1) ∧
        mod.image_base ∉ m.modules_.map Prod.fst ∧
        m.map_module C p1 emu
          = ⟨.entry mod.image_base, ⟨map_try_emplace mod.image_base mod m.modules_⟩, emu1,
              [.load c1, .log mod.path mod.image_base]⟩ ∧
        (m.map_module C p1 emu).manager.map_module C p2 (m.map_module C p1 emu).emu
          = ⟨.entry mod.image_base, ⟨map_try_emplace mod.image_base mod m.modules_⟩, emu1,
              []⟩ := by
    intro hf
    have hne := hload hf
    cases hl : C.map_module_from_file emu c1 with
    | mk r emu1 =>
      cases r with
      | none => rw [hl] at hne; exact absurd rfl hne
      | some mod =>
        obtain ⟨hpath, hkey⟩ := hcontract c1 mod emu1 hl
        have h := map_module_loaded C p1 c1 m emu emu1 mod h1 hf hl
        rw [h]
        refine ⟨mod, emu1, rfl, hkey, rfl, ?_⟩
        refine map_module_hit C p2 c2 _ emu1 (mod.image_base, mod) h2 ?_
        rw [hpred]
        exact find_path_try_emplace C c1 mod m.modules_
          (by rw [hpath]; exact C.path_equal_refl c1) hf hkey
  refine ⟨?_, ?_, hit, ?_⟩
  · cases hf : m.modules_.find? (fun mod => C.path_equal mod.2.path c1) with
    | some e =>
      obtain ⟨ha, hb⟩ := hit e hf
      rw [hb, ha]
      have hmem : e ∈ m.modules_ := List.mem_of_find?_eq_some hf
      exact ⟨e.1, e.2, rfl, map_find_of_mem e m.modules_ hsorted hmem, rfl,
        map_find_of_mem e m.modules_ hsorted hmem⟩
    | none =>
      obtain ⟨mod, emu1, _, hkey, ha, hb⟩ := miss hf
      rw [hb, ha]
      have hfind : map_find mod.image_base (map_try_emplace mod.image_base mod m.modules_)
          = some mod := by
        rw [map_find_try_emplace _ _ _ _ hkey, if_pos rfl]
      exact ⟨mod.image_base, mod, rfl, hfind, rfl, hfind⟩
  · cases hf : m.modules_.find? (fun mod => C.path_equal mod.2.path c1) with
    | some e =>
      obtain ⟨ha, hb⟩ := hit e hf
      rw [hb, ha]
      exact Nat.zero_le _
    | none =>
      obtain ⟨mod, emu1, _, _, ha, hb⟩ := miss hf
      rw [hb, ha]
      exact le_refl _
  · intro hf
    obtain ⟨mod, emu1, hl, hkey, ha, hb⟩ := miss hf
    refine ⟨mod, emu1, hl, ha, hb, ?_, ?_⟩
    · simpa using (map_try_emplace_perm mod.image_base mod m.modules_ hkey).length_eq
    · intro e
      simpa using (map_try_emplace_perm mod.image_base mod m.modules_ hkey).mem_iff

/-- Claim C14 at a concrete input: beside the resident `ntdll`, the paths
`\??\C:\a.dll` and `C:\a.dll` with a loader that records the path and places
the image at the free base `0x10000`.  The loader is invoked once over the two
calls, and the second call returns the entry the first one stored. -/
theorem C14_idempotent_mapping_witness :
    (((⟨[(0x7FF00000, ntdll)]⟩ : module_manager).map_module example_collaborators
          (text "\\??\\C:\\a.dll") 0).events ++
      (((⟨[(0x7FF00000, ntdll)]⟩ : module_manager).map_module example_collaborators
          (text "\\??\\C:\\a.dll") 0).manager.map_module example_collaborators
        (text "C:\\a.dll")
        ((⟨[(0x7FF00000, ntdll)]⟩ : module_manager).map_module example_collaborators
          (text "\\??\\C:\\a.dll") 0).emu).events).countP event.is_load ≤ 1 ∧
    (((⟨[(0x7FF00000, ntdll)]⟩ : module_manager).map_module example_collaborators
          (text "\\??\\C:\\a.dll") 0).manager.map_module example_collaborators
        (text "C:\\a.dll")
        ((⟨[(0x7FF00000, ntdll)]⟩ : module_manager).map_module example_collaborators
          (text "\\??\\C:\\a.dll") 0).emu).result = .entry 0x10000 :=
  ⟨(C14_idempotent_mapping example_collaborators ⟨[(0x7FF00000, ntdll)]⟩ 0
      (text "\\??\\C:\\a.dll") (text "C:\\a.dll") (text "C:\\a.dll") (text "C:\\a.dll")
      (by decide)
      (by rw [canonicalize_module_path_strip]; rfl)
      (by rw [canonicalize_module_path_strip]; rfl)
      (by decide)
      (example_loader_contract _ 0 (by decide))
      (fun _ => by decide)).2.1,
    by
      rw [map_module_loaded example_collaborators (text "\\??\\C:\\a.dll") (text "C:\\a.dll")
        ⟨[(0x7FF00000, ntdll)]⟩ 0 1
        { ntdll with path := text "C:\\a.dll", image_base := 0x10000 }
        (by rw [canonicalize_module_path_strip]; rfl) (by decide) rfl]
      rw [map_module_hit example_collaborators (text "C:\\a.dll") (text "C:\\a.dll") _ 1
        (0x10000, { ntdll with path := text "C:\\a.dll", image_base := 0x10000 })
        (by rw [canonicalize_module_path_strip]; rfl) (by decide)]⟩

theorem map_module_manager_cases {ε : Type} (C : collaborators ε) (file : List Nat)
    (m : module_manager) (emu : ε) :
    (m.map_module C file emu).manager = m ∨
    ∃ c mod emu1, m.modules_.find? (fun e => C.path_equal e.2.path c) = none ∧
      C.map_module_from_file emu c = (some mod, emu1) ∧
      (m.map_module C file emu).manager
        = ⟨map_try_emplace mod.image_base mod m.modules_⟩ := by
  cases hc : canonicalize_module_path C.canonical_absolute file with
  | none => rw [map_module_threw C file m emu hc]; exact Or.inl rfl
  | some c =>
    cases hf : m.modules_.find? (fun e => C.path_equal e.2.path c) with
    | some e => rw [map_module_hit C file c m emu e hc hf]; exact Or.inl rfl
    | none =>
      cases hl : C.map_module_from_file emu c with
      | mk r emu1 =>
        cases r with
        | none => rw [map_module_failed C file c m emu emu1 hc hf hl]; exact Or.inl rfl
        | some mod =>
          rw [map_module_loaded C file c m emu emu1 mod hc hf hl]
          exact Or.inr ⟨c, mod, emu1, hf, hl, rfl⟩

theorem unmap_manager_cases {ε : Type} (C : collaborators ε) (address : Nat)
    (m : module_manager) (emu : ε) :
    (m.unmap C address emu).manager = m ∨
      (m.unmap C address emu).manager = ⟨map_erase address m.modules_⟩ := by
  unfold module_manager.unmap
  cases map_find address m.modules_ with
  | none => exact Or.inl rfl
  | some mod => exact Or.inr rfl

theorem manager_call_run_dedup {ε : Type} (C : collaborators ε)
    (hC : ∀ emu c mod emu1, C.map_module_from_file emu c = (some mod, emu1) → mod.path = c)
    (call : manager_call) (state : module_manager × ε)
    (h : (state.1.modules_.map (fun e => e.2.path)).Pairwise
        (fun p q => C.path_equal p q = false) ∧
      (state.1.modules_.map Prod.fst).Pairwise (· < ·)) :
    ((call.run C state).1.modules_.map (fun e => e.2.path)).Pairwise
        (fun p q => C.path_equal p q = false) ∧
      ((call.run C state).1.modules_.map Prod.fst).Pairwise (· < ·) := by
  cases call with
  | map_module file =>
    have hrun : (manager_call.run C state (.map_module file)).1
        = (state.1.map_module C file state.2).manager := rfl
    rw [hrun]
    rcases map_module_manager_cases C file state.1 state.2 with h1 | ⟨c, mod, emu1, hf, hl, h1⟩
    · rw [h1]; exact h
    · rw [h1]
      refine ⟨?_, map_try_emplace_sorted _ _ _ h.2⟩
      by_cases hkey : mod.image_base ∈ state.1.modules_.map Prod.fst
      · rw [map_try_emplace_present _ _ _ h.2 hkey]
        exact h.1
      · have hp := (map_try_emplace_perm mod.image_base mod state.1.modules_ hkey).map
          (fun e => e.2.path)
        rw [hp.pairwise_iff (fun {p q} hpq => path_equal_false_symm C p q hpq),
          List.map_cons, List.pairwise_cons]
        refine ⟨?_, h.1⟩
        intro q hmem
        obtain ⟨e, he, hpe⟩ := List.mem_map.mp hmem
        have hne := List.find?_eq_none.mp hf e he
        simp only [Bool.not_eq_true] at hne
        rw [← hpe, hC _ _ _ _ hl]
        exact path_equal_false_symm C _ _ hne
  | unmap address =>
    have hrun : (manager_call.run C state (.unmap address)).1
        = (state.1.unmap C address state.2).manager := rfl
    rw [hrun]
    rcases unmap_manager_cases C address state.1 state.2 with h1 | h1
    · rw [h1]; exact h
    · rw [h1]
      exact ⟨h.1.sublist ((map_erase_sublist address _).map _),
        map_erase_sorted _ _ h.2⟩

/-- Claim C15.  Dedup invariant: with a loader that returns records carrying
the canonical path it was given, from the empty table and any state of the
emulator, after any sequence of calls of `map_module` and `unmap` no two
entries of the table have the same path, and the keys of the table are
strictly increasing, so there is at most one entry per base address.  The
paths of two entries are not only different strings: they do not compare
equal as paths either. -/
theorem C15_dedup_invariant {ε : Type} (C : collaborators ε)
    (hC : ∀ emu c mod emu1, C.map_module_from_file emu c = (some mod, emu1) → mod.path = c)
    (calls : List manager_call) (emu : ε) :
    ((calls.foldl (fun (state : module_manager × ε) (call : manager_call) => call.run C state)
        (⟨[]⟩, emu)).1.modules_.map
      (fun e => e.2.path)).Nodup ∧
    ((calls.foldl (fun (state : module_manager × ε) (call : manager_call) => call.run C state)
        (⟨[]⟩, emu)).1.modules_.map
      Prod.fst).Pairwise (· < ·) ∧
    ((calls.foldl (fun (state : module_manager × ε) (call : manager_call) => call.run C state)
        (⟨[]⟩, emu)).1.modules_.map
      Prod.fst).Nodup ∧
    ((calls.foldl (fun (state : module_manager × ε) (call : manager_call) => call.run C state)
        (⟨[]⟩, emu)).1.modules_.map
      (fun e => e.2.path)).Pairwise (fun p q => C.path_equal p q = false) := by
  have key : ∀ (calls : List manager_call) (state : module_manager × ε),
      ((state.1.modules_.map (fun e => e.2.path)).Pairwise
          (fun p q => C.path_equal p q = false) ∧
        (state.1.modules_.map Prod.fst).Pairwise (· < ·)) →
      (((calls.foldl (fun (state : module_manager × ε) (call : manager_call) => call.run C state)
          state).1.modules_.map
          (fun e => e.2.path)).Pairwise (fun p q => C.path_equal p q = false) ∧
        ((calls.foldl (fun (state : module_manager × ε) (call : manager_call) => call.run C state)
          state).1.modules_.map
          Prod.fst).Pairwise (· < ·)) := by
    intro calls
    induction calls with
    | nil => exact fun state h => h
    | cons call calls ih =>
      exact fun state h => ih _ (manager_call_run_dedup C hC call state h)
  have h := key calls (⟨[]⟩, emu) ⟨List.Pairwise.nil, List.Pairwise.nil⟩
  refine ⟨h.1.imp ?_, h.2, h.2.imp (fun hlt => ne_of_lt hlt), h.1⟩
  intro p q hpq heq
  rw [heq, C.path_equal_refl q] at hpq
  exact absurd hpq (by decide)

/-- Claim C15 at a concrete input: map two files, map the first one again
under its NT name, unmap it, map it again. -/
theorem C15_dedup_invariant_witness :
    (([manager_call.map_module (text "C:\\a.dll"), .map_module (text "C:\\b.dll"),
        .map_module (text "\\??\\C:\\a.dll"), .unmap 0x10000,
        .map_module (text "C:\\a.dll")].foldl
      (fun (state : module_manager × Nat) (call : manager_call) =>
        call.run example_collaborators state) (⟨[]⟩, 0)).1.modules_.map
      (fun e => e.2.path)).Nodup :=
  (C15_dedup_invariant example_collaborators
    (by
      intro emu c mod emu1 h
      simp only [example_collaborators] at h
      split_ifs at h
      · simp at h
      · simp only [Prod.mk.injEq, Option.some.injEq] at h
        rw [← h.1])
    [.map_module (text "C:\\a.dll"), .map_module (text "C:\\b.dll"),
      .map_module (text "\\??\\C:\\a.dll"), .unmap 0x10000,
      .map_module (text "C:\\a.dll")] 0).1

/-- Claim C16.  `unmap` on a table kept by strictly increasing base.  If the
address is not a key (also when it lies inside a module without being its
base), `unmap` returns false, does not invoke `unmap_module` and leaves the
table and the emulator as they were.  If it is the key of a record, `unmap`
invokes `unmap_module` once, on that record, returns true, and the new table
is the old one without the entry at the address: every other entry is kept
as it was and nothing is added. -/
theorem C16_unmap {ε : Type} (C : collaborators ε) (m : module_manager) (emu : ε)
    (address : Nat) (hsorted : (m.modules_.map Prod.fst).Pairwise (· < ·)) :
    (address ∉ m.modules_.map Prod.fst → m.unmap C address emu = ⟨false, m, emu, []⟩) ∧
    (∀ mod, (address, mod) ∈ m.modules_ →
      (m.unmap C address emu).result = true ∧
      (m.unmap C address emu).events = [.unload mod] ∧
      (m.unmap C address emu).emu = C.unmap_module emu mod ∧
      (∀ e, e ∈ (m.unmap C address emu).manager.modules_ ↔ e ∈ m.modules_ ∧ e.1 ≠ address) ∧
      (∀ k, map_find k (m.unmap C address emu).manager.modules_
        = if k = address then none else map_find k m.modules_) ∧
      (m.unmap C address emu).manager.modules_.length + 1 = m.modules_.length ∧
      ((m.unmap C address emu).manager.modules_.map Prod.fst).Pairwise (· < ·)) := by
  constructor
  · intro h
    unfold module_manager.unmap
    rw [(map_find_eq_none address m.modules_).mpr h]
  · intro mod hmem
    have hfind : map_find address m.modules_ = some mod :=
      map_find_of_mem (address, mod) m.modules_ hsorted hmem
    have hu : m.unmap C address emu
        = ⟨true, ⟨map_erase address m.modules_⟩, C.unmap_module emu mod, [.unload mod]⟩ := by
      unfold module_manager.unmap
      rw [hfind]
    rw [hu]
    refine ⟨rfl, rfl, rfl, ?_, ?_, ?_, ?_⟩
    · exact map_erase_mem address m.modules_ hsorted
    · exact fun k => map_find_erase k address m.modules_ hsorted
    · exact map_erase_length address m.modules_ (List.mem_map_of_mem Prod.fst hmem)
    · exact map_erase_sorted address m.modules_ hsorted

/-- Claim C16 at a concrete input: the table `{0x7FF00000 ↦ ntdll}`, whose
image takes `0x100000` bytes; `0x7FF00010` lies inside the image and is not
unmapped, `0x7FF00000` is. -/
theorem C16_unmap_witness :
    (⟨[(0x7FF00000, ntdll)]⟩ : module_manager).unmap example_collaborators 0x7FF00010 0
      = ⟨false, ⟨[(0x7FF00000, ntdll)]⟩, 0, []⟩ ∧
    ((⟨[(0x7FF00000, ntdll)]⟩ : module_manager).unmap example_collaborators
      0x7FF00000 0).result = true ∧
    ((⟨[(0x7FF00000, ntdll)]⟩ : module_manager).unmap example_collaborators
      0x7FF00000 0).events = [.unload ntdll] :=
  have h1 := (C16_unmap example_collaborators ⟨[(0x7FF00000, ntdll)]⟩ 0 0x7FF00010
    (by decide)).1 (by decide)
  have h2 := (C16_unmap example_collaborators ⟨[(0x7FF00000, ntdll)]⟩ 0 0x7FF00000
    (by decide)).2 ntdll (by decide)
  ⟨h1, h2.1, h2.2.1⟩

/-- Claim C17.  Load failure: for a path whose canonical form `c` compares
equal to the path of no resident record, if the loader fails then
`map_module` returns `nullptr`, has invoked the loader once and logged one
error, about the requested file, and no informational line, and the table is
unchanged.  On a dedup hit, on the first record in iteration order whose path
compares equal to `c`, the entry found is returned, the loader is not
invoked, nothing is logged, and the table and the emulator are unchanged. -/
theorem C17_load_failure {ε : Type} (C : collaborators ε) (m : module_manager)
    (emu : ε) (file c : List Nat)
    (hc : canonicalize_module_path C.canonical_absolute file = some c) :
    (m.modules_.find? (fun mod => C.path_equal mod.2.path c) = none →
      ∀ emu1, C.map_module_from_file emu c = (none, emu1) →
      m.map_module C file emu = ⟨.nullptr, m, emu1, [.load c, .error file]⟩) ∧
    (∀ e, m.modules_.find? (fun mod => C.path_equal mod.2.path c) = some e →
      m.map_module C file emu = ⟨.entry e.1, m, emu, []⟩) :=
  ⟨fun hf emu1 hl => map_module_failed C file c m emu emu1 hc hf hl,
    fun e he => map_module_hit C file c m emu e hc he⟩

/-- Claim C17 at concrete inputs: the loader refuses `C:\missing.dll`; and
with `/fs//a.dll` resident at `0x50000`, mapping `/fs/a.dll`, another spelling
of the same path, is a dedup hit. -/
theorem C17_load_failure_witness :
    (⟨[(0x7FF00000, ntdll)]⟩ : module_manager).map_module example_collaborators
        (text "\\??\\C:\\missing.dll") 0
      = ⟨.nullptr, ⟨[(0x7FF00000, ntdll)]⟩, 0,
          [.load (text "C:\\missing.dll"), .error (text "\\??\\C:\\missing.dll")]⟩ ∧
    (⟨[(0x50000, { ntdll with path := text "/fs//a.dll", image_base := 0x50000 })]⟩ :
        module_manager).map_module example_collaborators (text "/fs/a.dll") 0
      = ⟨.entry 0x50000,
          ⟨[(0x50000, { ntdll with path := text "/fs//a.dll", image_base := 0x50000 })]⟩,
          0, []⟩ :=
  ⟨(C17_load_failure example_collaborators ⟨[(0x7FF00000, ntdll)]⟩ 0
      (text "\\??\\C:\\missing.dll") (text "C:\\missing.dll")
      (by rw [canonicalize_module_path_strip]; rfl)).1 (by decide) 0 rfl,
    (C17_load_failure example_collaborators
      ⟨[(0x50000, { ntdll with path := text "/fs//a.dll", image_base := 0x50000 })]⟩ 0
      (text "/fs/a.dll") (text "/fs/a.dll")
      (by rw [canonicalize_module_path_strip]; rfl)).2
      (0x50000, { ntdll with path := text "/fs//a.dll", image_base := 0x50000 })
      (by decide)⟩

/-- Claim C18.  Path canonicalization: `canonicalize_module_path` is a total
function; on every path it returns what `canonical(absolute(...))` returns
(or throws what it throws) on the path with every leading occurrence of the
prefix `\??\` removed.  Hence a path and the same path behind one more
prefix canonicalize alike, and a path that does not start with the prefix is
handed to the filesystem as it is. -/
theorem C18_canonicalize (ca : List Nat → Option (List Nat)) (p : List Nat) :
    canonicalize_module_path ca p = ca (strip_nt_prefixes p) ∧
    canonicalize_module_path ca ( nt_prefix ++ p) = canonicalize_module_path ca p ∧
    (starts_with p nt_prefix = false → canonicalize_module_path ca p = ca p) ∧
    starts_with (strip_nt_prefixes p) nt_prefix = false ∧
    ∃ n, p = (List.replicate n nt_prefix).flatten ++ strip_nt_prefixes p := by
  refine ⟨canonicalize_module_path_strip ca p, ?_, ?_, ?_, ?_⟩
  · rw [canonicalize_module_path_strip, canonicalize_module_path_strip,
      strip_nt_prefixes_append]
  · intro h
    rw [canonicalize_module_path_strip, strip_nt_prefixes_of_not_starts_with p h]
  · have key : ∀ (n : Nat) (p : List Nat), p.length ≤ n →
        starts_with (strip_nt_prefixes p) nt_prefix = false := by
      intro n
      induction n with
      | zero =>
        intro p hlen
        have hnil : p = [] := List.length_eq_zero.mp (Nat.le_zero.mp hlen)
        subst hnil
        rfl
      | succ n ih =>
        intro p hlen
        by_cases hs : starts_with p nt_prefix = false
        · rw [strip_nt_prefixes_of_not_starts_with p hs]; exact hs
        · have hs1 : starts_with p nt_prefix = true := by simpa using hs
          obtain ⟨rest, rfl⟩ := (starts_with_iff_append p).mp hs1
          rw [strip_nt_prefixes_append]
          exact ih rest (by simp [ nt_prefix] at hlen; omega)
    exact key p.length p (le_refl _)
  · have key : ∀ (n : Nat) (p : List Nat), p.length ≤ n →
        ∃ k, p = (List.replicate k nt_prefix).flatten ++ strip_nt_prefixes p := by
      intro n
      induction n with
      | zero =>
        intro p hlen
        have hnil : p = [] := List.length_eq_zero.mp (Nat.le_zero.mp hlen)
        subst hnil
        exact ⟨0, rfl⟩
      | succ n ih =>
        intro p hlen
        by_cases hs : starts_with p nt_prefix = false
        · exact ⟨0, by rw [strip_nt_prefixes_of_not_starts_with p hs]; rfl⟩
        · have hs1 : starts_with p nt_prefix = true := by simpa using hs
          obtain ⟨rest, rfl⟩ := (starts_with_iff_append p).mp hs1
          obtain ⟨k, hk⟩ := ih rest (by simp [ nt_prefix] at hlen; omega)
          refine ⟨k + 1, ?_⟩
          rw [strip_nt_prefixes_append, List.replicate_succ, List.flatten_cons,
            List.append_assoc, ← hk]
    exact key p.length p (le_refl _)

/-- Claim C18 at a concrete input: `C:\a\b.dll` does not start with the
prefix and goes to the filesystem as it is, and `\??\C:\a\b.dll`
canonicalizes to the same. -/
theorem C18_canonicalize_witness :
    canonicalize_module_path some (text "C:\\a\\b.dll") = some (text "C:\\a\\b.dll") ∧
    canonicalize_module_path some ( nt_prefix ++ text "C:\\a\\b.dll")
      = canonicalize_module_path some (text "C:\\a\\b.dll") :=
  ⟨(C18_canonicalize some (text "C:\\a\\b.dll")).2.2.1 (by decide),
    (C18_canonicalize some (text "C:\\a\\b.dll")).2.1⟩

/-- Claim C19.  Unmap and remap, on a table kept by strictly increasing base
that keeps the dedup invariant (no two entries have paths that compare equal)
and holds at base `b` a record `old` of the file, whose canonical path is `c`,
with a mapping collaborator that keeps its contract at the state the `unmap`
leaves.  `unmap(b)` succeeds, invokes `unmap_module` on `old` and removes the
entry: `(b, old)` is not in the table it leaves.  The following `map_module`
is not a dedup hit: no entry left has a path that compares equal to `c`, and
the loader is invoked, once.  If the loader succeeds, the record it returns is
stored under its image base and that entry is returned; the final table
consists of the new entry and of the entries of the first table other than
the one at `b`, so a lookup at `b` finds nothing, unless the loader has used
the base `b` again, and then it finds the newly loaded record. -/
theorem C19_unmap_remap {ε : Type} (C : collaborators ε) (m : module_manager)
    (emu : ε) (b : Nat) (old : mapped_module) (file c : List Nat)
    (hsorted : (m.modules_.map Prod.fst).Pairwise (· < ·))
    (hdedup : (m.modules_.map (fun e => e.2.path)).Pairwise
      (fun p q => C.path_equal p q = false))
    (hold : (b, old) ∈ m.modules_)
    (hc : canonicalize_module_path C.canonical_absolute file = some c)
    (hpath : C.path_equal old.path c = true)
    (hcontract : loader_contract C ⟨map_erase b m.modules_⟩ (C.unmap_module emu old)) :
    m.unmap C b emu
      = ⟨true, ⟨map_erase b m.modules_⟩, C.unmap_module emu old, [.unload old]⟩ ∧
    (b, old) ∉ (m.unmap C b emu).manager.modules_ ∧
    (m.unmap C b emu).manager.modules_.find? (fun mod => C.path_equal mod.2.path c) = none ∧
    ((m.unmap C b emu).manager.map_module C file (m.unmap C b emu).emu).events.countP
      event.is_load = 1 ∧
    event.load c ∈
      ((m.unmap C b emu).manager.map_module C file (m.unmap C b emu).emu).events ∧
    (∀ mod emu2, C.map_module_from_file (C.unmap_module emu old) c = (some mod, emu2) →
      (m.unmap C b emu).manager.map_module C file (m.unmap C b emu).emu
        = ⟨.entry mod.image_base,
            ⟨map_try_emplace mod.image_base mod (map_erase b m.modules_)⟩, emu2,
            [.load c, .log mod.path mod.image_base]⟩ ∧
      (∀ e, e ∈ map_try_emplace mod.image_base mod (map_erase b m.modules_)
        ↔ e = (mod.image_base, mod) ∨ (e ∈ m.modules_ ∧ e.1 ≠ b)) ∧
      (∀ k, map_find k (map_try_emplace mod.image_base mod (map_erase b m.modules_))
        = if k = mod.image_base then some mod
          else if k = b then none else map_find k m.modules_)) := by
  have hfind : map_find b m.modules_ = some old :=
    map_find_of_mem (b, old) m.modules_ hsorted hold
  have hu : m.unmap C b emu
      = ⟨true, ⟨map_erase b m.modules_⟩, C.unmap_module emu old, [.unload old]⟩ := by
    unfold module_manager.unmap
    rw [hfind]
  have honly : ∀ e ∈ m.modules_, C.path_equal e.2.path c = true → e = (b, old) := by
    intro e he hp
    by_contra hne
    have hpw := List.pairwise_map.mp hdedup
    have hpq : C.path_equal e.2.path old.path = true :=
      C.path_equal_trans _ _ _ hp (C.path_equal_symm _ _ hpath)
    have hsym : ∀ x y : Nat × mapped_module, C.path_equal x.2.path y.2.path = false →
        C.path_equal y.2.path x.2.path = false :=
      fun x y hxy => path_equal_false_symm C _ _ hxy
    have hfalse := hpw.forall (fun x y hxy => hsym x y hxy) he hold hne
    rw [hpq] at hfalse
    cases hfalse
  have hnone : (map_erase b m.modules_).find? (fun e => C.path_equal e.2.path c) = none := by
    rw [List.find?_eq_none]
    intro e he
    have hmem := (map_erase_mem b m.modules_ hsorted e).mp he
    intro hp
    have heq := honly e hmem.1 hp
    rw [heq] at hmem
    exact hmem.2 rfl
  rw [hu]
  refine ⟨rfl, ?_, hnone, ?_, ?_, ?_⟩
  · intro hmem
    exact ((map_erase_mem b m.modules_ hsorted (b, old)).mp hmem).2 rfl
  · cases hl : C.map_module_from_file (C.unmap_module emu old) c with
    | mk r emu2 =>
      cases r with
      | none =>
        rw [map_module_failed C file c ⟨map_erase b m.modules_⟩ _ emu2 hc hnone hl]
        rfl
      | some mod =>
        rw [map_module_loaded C file c ⟨map_erase b m.modules_⟩ _ emu2 mod hc hnone hl]
        rfl
  · cases hl : C.map_module_from_file (C.unmap_module emu old) c with
    | mk r emu2 =>
      cases r with
      | none =>
        rw [map_module_failed C file c ⟨map_erase b m.modules_⟩ _ emu2 hc hnone hl]
        exact List.mem_cons_self _ _
      | some mod =>
        rw [map_module_loaded C file c ⟨map_erase b m.modules_⟩ _ emu2 mod hc hnone hl]
        exact List.mem_cons_self _ _
  · intro mod emu2 hl
    have hkey : mod.image_base ∉ (map_erase b m.modules_).map Prod.fst :=
      (hcontract c mod emu2 hl).2
    refine ⟨map_module_loaded C file c ⟨map_erase b m.modules_⟩ _ emu2 mod hc hnone hl,
      ?_, ?_⟩
    · intro e
      rw [(map_try_emplace_perm mod.image_base mod (map_erase b m.modules_) hkey).mem_iff,
        List.mem_cons, map_erase_mem b m.modules_ hsorted e]
    · intro k
      rw [map_find_try_emplace _ _ _ _ hkey, map_find_erase _ _ _ hsorted]

/-- Claim C19 at a concrete input: `C:\a.dll` is resident at `0x10000` beside
`ntdll`, is unmapped and mapped again under its NT name; the loader places it
at `0x20000`. -/
theorem C19_unmap_remap_witness :
    ((⟨[(0x10000, { ntdll with path := text "C:\\a.dll", image_base := 0x10000 }),
        (0x7FF00000, ntdll)]⟩ : module_manager).unmap example_collaborators
        0x10000 1).manager.map_module example_collaborators (text "\\??\\C:\\a.dll")
        ((⟨[(0x10000, { ntdll with path := text "C:\\a.dll", image_base := 0x10000 }),
          (0x7FF00000, ntdll)]⟩ : module_manager).unmap example_collaborators
          0x10000 1).emu
      = ⟨.entry 0x20000,
          ⟨map_try_emplace 0x20000
            { ntdll with path := text "C:\\a.dll", image_base := 0x20000 }
            (map_erase 0x10000
              [(0x10000, { ntdll with path := text "C:\\a.dll", image_base := 0x10000 }),
                (0x7FF00000, ntdll)])⟩, 2,
          [.load (text "C:\\a.dll"), .log (text "C:\\a.dll") 0x20000]⟩ :=
  ((C19_unmap_remap example_collaborators
    ⟨[(0x10000, { ntdll with path := text "C:\\a.dll", image_base := 0x10000 }),
      (0x7FF00000, ntdll)]⟩ 1 0x10000
    { ntdll with path := text "C:\\a.dll", image_base := 0x10000 }
    (text "\\??\\C:\\a.dll") (text "C:\\a.dll") (by decide) (by decide) (by decide)
    (by rw [canonicalize_module_path_strip]; rfl) (by decide)
    (example_loader_contract _ 1 (by decide))).2.2.2.2.2
    { ntdll with path := text "C:\\a.dll", image_base := 0x20000 } 2 rfl).1

theorem map_module_keeps_keys {ε : Type} (C : collaborators ε) (file : List Nat)
    (m : module_manager) (emu : ε)
    (h : ∀ e ∈ m.modules_, e.1 = e.2.image_base) :
    ∀ e ∈ (m.map_module C file emu).manager.modules_, e.1 = e.2.image_base := by
  rcases map_module_manager_cases C file m emu with h1 | ⟨c, mod, emu1, _, _, h1⟩
  · rw [h1]; exact h
  · rw [h1]
    intro e he
    by_cases hkey : mod.image_base ∈ m.modules_.map Prod.fst
    · have hsub : ∀ (l : List (Nat × mapped_module)),
          ∀ x ∈ map_try_emplace mod.image_base mod l, x = (mod.image_base, mod) ∨ x ∈ l := by
        intro l
        induction l with
        | nil => intro x hx; simpa [map_try_emplace] using hx
        | cons entry rest ih =>
          intro x hx
          simp only [map_try_emplace] at hx
          split_ifs at hx
          · rcases List.mem_cons.mp hx with rfl | hx
            · exact Or.inl rfl
            · exact Or.inr hx
          · exact Or.inr hx
          · rcases List.mem_cons.mp hx with rfl | hx
            · exact Or.inr (List.mem_cons_self _ _)
            · rcases ih x hx with h2 | h2
              · exact Or.inl h2
              · exact Or.inr (List.mem_cons_of_mem _ h2)
      rcases hsub _ e he with rfl | h2
      · rfl
      · exact h e h2
    · rcases (map_try_emplace_perm mod.image_base mod m.modules_ hkey).mem_iff.mp he with h2
      rcases List.mem_cons.mp h2 with rfl | h3
      · rfl
      · exact h e h3

/-- Claim C20.  Base-address collision in `map_module`, on a table kept by
strictly increasing base, when the canonical path `c` of the file is not
resident and the loader succeeds with a record.  If the image base of the
record is already a key, the table is unchanged, the record is dropped, and
the entry returned is the one already stored at that base, whose path does
not compare equal to `c` (and is another string).  If it is not yet a key, the table gains exactly the entry from the
image base to the record, every other lookup is as before, and the entry
returned is the new one.  In both cases the entries whose key is the image
base of their record keep that property, so it holds for every table built
by `map_module` and `unmap` from the empty one. -/
theorem C20_base_collision {ε : Type} (C : collaborators ε) (m : module_manager)
    (emu emu1 : ε) (file c : List Nat) (mod : mapped_module)
    (hsorted : (m.modules_.map Prod.fst).Pairwise (· < ·))
    (hc : canonicalize_module_path C.canonical_absolute file = some c)
    (hf : m.modules_.find? (fun e => C.path_equal e.2.path c) = none)
    (hl : C.map_module_from_file emu c = (some mod, emu1)) :
    (∀ old, (mod.image_base, old) ∈ m.modules_ →
      m.map_module C file emu
        = ⟨.entry mod.image_base, m, emu1, [.load c, .log mod.path mod.image_base]⟩ ∧
      map_find mod.image_base (m.map_module C file emu).manager.modules_ = some old ∧
      C.path_equal old.path c = false ∧
      old.path ≠ c) ∧
    (mod.image_base ∉ m.modules_.map Prod.fst →
      (m.map_module C file emu).result = .entry mod.image_base ∧
      map_find mod.image_base (m.map_module C file emu).manager.modules_ = some mod ∧
      (∀ k, k ≠ mod.image_base →
        map_find k (m.map_module C file emu).manager.modules_ = map_find k m.modules_) ∧
      (∀ e, e ∈ (m.map_module C file emu).manager.modules_
        ↔ e = (mod.image_base, mod) ∨ e ∈ m.modules_) ∧
      (m.map_module C file emu).manager.modules_.length = m.modules_.length + 1) ∧
    ((∀ e ∈ m.modules_, e.1 = e.2.image_base) →
      ∀ e ∈ (m.map_module C file emu).manager.modules_, e.1 = e.2.image_base) ∧
    (∀ (calls : List manager_call) (emu0 : ε),
      ∀ e ∈ (calls.foldl
        (fun (state : module_manager × ε) (call : manager_call) => call.run C state)
        (⟨[]⟩, emu0)).1.modules_, e.1 = e.2.image_base) := by
  have hm := map_module_loaded C file c m emu emu1 mod hc hf hl
  refine ⟨?_, ?_, map_module_keeps_keys C file m emu, ?_⟩
  · intro old hold
    have hkey : mod.image_base ∈ m.modules_.map Prod.fst :=
      List.mem_map_of_mem Prod.fst hold
    rw [hm, map_try_emplace_present _ _ _ hsorted hkey]
    have hne : C.path_equal old.path c = false := by
      simpa using List.find?_eq_none.mp hf _ hold
    refine ⟨rfl, map_find_of_mem (mod.image_base, old) m.modules_ hsorted hold, hne, ?_⟩
    intro heq
    rw [heq, C.path_equal_refl c] at hne
    cases hne
  · intro hkey
    rw [hm]
    refine ⟨rfl, ?_, ?_, ?_, ?_⟩
    · rw [map_find_try_emplace _ _ _ _ hkey, if_pos rfl]
    · intro k hk
      rw [map_find_try_emplace _ _ _ _ hkey, if_neg hk]
    · intro e
      simpa using (map_try_emplace_perm mod.image_base mod m.modules_ hkey).mem_iff
    · simpa using (map_try_emplace_perm mod.image_base mod m.modules_ hkey).length_eq
  · intro calls
    have key : ∀ (calls : List manager_call) (state : module_manager × ε),
        (∀ e ∈ state.1.modules_, e.1 = e.2.image_base) →
        ∀ e ∈ (calls.foldl
          (fun (state : module_manager × ε) (call : manager_call) => call.run C state)
          state).1.modules_, e.1 = e.2.image_base := by
      intro calls
      induction calls with
      | nil => exact fun state h => h
      | cons call calls ih =>
        intro state h
        refine ih _ ?_
        cases call with
        | map_module file1 => exact map_module_keeps_keys C file1 state.1 state.2 h
        | unmap address =>
          have hrun : (manager_call.run C state (.unmap address)).1
              = (state.1.unmap C address state.2).manager := rfl
          rw [hrun]
          rcases unmap_manager_cases C address state.1 state.2 with h1 | h1
          · rw [h1]; exact h
          · rw [h1]
            exact fun e he => h e ((map_erase_sublist address _).subset he)
    exact fun emu0 => key calls (⟨[]⟩, emu0) (by simp)

/-- Claim C20 at a concrete input: the collision of `C:\a.dll` with the
resident `ntdll` at `0x7FF00000`. -/
theorem C20_base_collision_witness :
    (⟨[(0x7FF00000, ntdll)]⟩ : module_manager).map_module colliding_collaborators
        (text "C:\\a.dll") ()
      = ⟨.entry 0x7FF00000, ⟨[(0x7FF00000, ntdll)]⟩, (),
          [.load (text "C:\\a.dll"), .log (text "C:\\a.dll") 0x7FF00000]⟩ ∧
    map_find 0x7FF00000 ((⟨[(0x7FF00000, ntdll)]⟩ : module_manager).map_module
      colliding_collaborators (text "C:\\a.dll") ()).manager.modules_ = some ntdll ∧
    colliding_collaborators.path_equal ntdll.path (text "C:\\a.dll") = false ∧
    ntdll.path ≠ text "C:\\a.dll" :=
  (C20_base_collision colliding_collaborators ⟨[(0x7FF00000, ntdll)]⟩ () ()
    (text "C:\\a.dll") (text "C:\\a.dll") { ntdll with path := text "C:\\a.dll" }
    (by decide) (by rw [canonicalize_module_path_strip]; rfl) (by decide) rfl).1
    ntdll (by decide)
